import Mathlib

/-!
Verification of the OpenSourceDUTH/API authentication, authorization and
quota-enforcement subsystem (Go), as a shallow embedding in Lean 4.

The relational store (SQLite) is modelled as lists of rows; a SQL point
query (`SELECT ... WHERE pk = ?`) becomes `List.find?`, a conditional
`DELETE` becomes `List.filter`, an `INSERT` appends.  64-bit integer ids
and RPM values are modelled as `Int` (no arithmetic in the code comes
close to overflow).  Timestamps are modelled as integers (unix seconds);
`time.Time.Before` is strict `<`.  Fallible Go functions returning
`(T, error)` are modelled as `Option`/`Except`; database I/O errors do
not occur in the pure model, so only the code's explicit `nil`/sentinel
paths remain.
-/

namespace OSDuth

/-! ## Data model (src/internal/auth/data.go, migrations/auth/000001_init.up.sql) -/

/-- A row of `groups`. -/
structure GroupRow where
  id : Int
  name : String
  defaultRpm : Int
  deriving DecidableEq

/-- A row of `users` (`role`/`status` kept as raw strings exactly as stored). -/
structure UserRow where
  id : Int
  email : String
  role : String
  status : String
  groupId : Int
  maxTokens : Int
  deriving DecidableEq

/-- A row of `features`. -/
structure FeatureRow where
  id : Int
  slug : String
  parentId : Option Int
  adminOnly : Bool
  deriving DecidableEq

/-- A row of `group_feature_quotas`; `rpmLimit = none` models SQL NULL (uncapped). -/
structure GroupQuotaRow where
  groupId : Int
  featureId : Int
  rpmLimit : Option Int
  deriving DecidableEq

/-- A row of `user_quota_overrides`; `rpmLimit = none` models SQL NULL (uncapped). -/
structure UserOverrideRow where
  userId : Int
  featureId : Int
  rpmLimit : Option Int
  deriving DecidableEq

/-- A row of `tokens`. `expiresAt`/`revokedAt` are nullable timestamps. -/
structure TokenRow where
  id : Int
  userId : Int
  tokenHash : String
  label : String
  adminCreated : Bool
  expiresAt : Option Int
  revokedAt : Option Int
  deriving DecidableEq

/-- A row of `token_features`. -/
structure TokenFeatureRow where
  tokenId : Int
  featureId : Int
  deriving DecidableEq

/-- A row of `token_allowed_ips`. -/
structure TokenIpRow where
  tokenId : Int
  ipAddress : String
  deriving DecidableEq

/-- A row of `oauth_states`. -/
structure OAuthStateRow where
  state : String
  expiresAt : Int
  deriving DecidableEq

/-- The auth database: one list of rows per table, in insertion order. -/
structure DB where
  groups : List GroupRow
  academicDomains : List String
  users : List UserRow
  features : List FeatureRow
  groupQuotas : List GroupQuotaRow
  userOverrides : List UserOverrideRow
  tokens : List TokenRow
  tokenFeatures : List TokenFeatureRow
  tokenIps : List TokenIpRow
  oauthStates : List OAuthStateRow
  deriving DecidableEq

/-- `DefaultSystemRPM` (src/internal/auth/quota.go): default RPM when no quota is defined. -/
def DefaultSystemRPM : Int := 60

/-- `UnlimitedRPM` (src/internal/auth/quota.go): sentinel for "no rate limit". -/
def UnlimitedRPM : Int := -1

/-! ## Repository lookups (src/internal/auth/data.go) -/

/-- `Repository.GetUserByID` (data.go:175): `SELECT ... FROM users u JOIN groups g
ON u.group_id = g.id WHERE u.id = ?`.  The INNER JOIN means the result is `none`
both when the user row is absent and when its group row is absent; on success the
returned `User` always carries its `Group`. -/
def GetUserByID (db : DB) (id : Int) : Option (UserRow × GroupRow) :=
  match db.users.find? (fun u => u.id == id) with
  | none => none
  | some u =>
    match db.groups.find? (fun g => g.id == u.groupId) with
    | none => none
    | some g => some (u, g)

/-- `Repository.GetGroupByName` (data.go:74). -/
def GetGroupByName (db : DB) (name : String) : Option GroupRow :=
  db.groups.find? (fun g => g.name == name)

/-- `Repository.IsAcademicDomain` (data.go:151): `SELECT COUNT(*) FROM
academic_domains WHERE domain = ?` compared with 0. -/
def IsAcademicDomain (db : DB) (domain : String) : Bool :=
  db.academicDomains.contains domain

/-- `Repository.GetUserTokenCount` (data.go:287): `SELECT COUNT(*) FROM tokens
WHERE user_id = ? AND revoked_at IS NULL`. -/
def GetUserTokenCount (db : DB) (userID : Int) : Nat :=
  (db.tokens.filter (fun t => t.userId == userID && t.revokedAt.isNone)).length

/-! ## Feature registry (src/internal/auth/features.go) -/

/-- `FeatureRegistry.GetFeatureBySlug` (features.go:18): point query on the
unique `slug` column. -/
def GetFeatureBySlug (db : DB) (slug : String) : Option FeatureRow :=
  db.features.find? (fun f => f.slug == slug)

/-- `FeatureRegistry.GetFeatureByID` (features.go:36). -/
def GetFeatureByID (db : DB) (id : Int) : Option FeatureRow :=
  db.features.find? (fun f => f.id == id)

/-- The loop body of `FeatureRegistry.GetFeatureAncestors` (features.go:199-216):

    currentID := &featureID
    for currentID != nil {
      feature := GetFeatureByID(*currentID)
      if feature == nil { break }
      ancestors = append(ancestors, *feature)
      currentID = feature.ParentID
    }

The Go loop has NO depth bound and no visited set; `fuel` counts loop
iterations, and a `none` result means the loop is still running after `fuel`
iterations (so `(∀ fuel, ... = none)` states that the loop never exits). -/
def ancestorsLoop (db : DB) : Nat → Option Int → Option (List FeatureRow)
  | 0, _ => none
  | _ + 1, none => some []
  | fuel + 1, some currentID =>
    match GetFeatureByID db currentID with
    | none => some []
    | some f => (ancestorsLoop db fuel f.parentId).map (fun rest => f :: rest)

/-- `FeatureRegistry.GetFeatureAncestors` (features.go:199): the feature itself
followed by its parent chain.  `none` models non-termination of the Go loop
within `fuel` iterations. -/
def GetFeatureAncestors (db : DB) (fuel : Nat) (featureID : Int) : Option (List FeatureRow) :=
  ancestorsLoop db fuel (some featureID)

/-- `FeatureRegistry.TokenHasFeatureAccess` (features.go:283-313): direct
membership of the target's id, else membership of any ancestor's id. -/
def TokenHasFeatureAccess (db : DB) (fuel : Nat) (tokenFeatureIDs : List Int)
    (targetFeatureSlug : String) : Option Bool :=
  match GetFeatureBySlug db targetFeatureSlug with
  | none => some false
  | some targetFeature =>
    if tokenFeatureIDs.contains targetFeature.id then some true
    else
      match GetFeatureAncestors db fuel targetFeature.id with
      | none => none
      | some ancestors => some (ancestors.any (fun a => tokenFeatureIDs.contains a.id))

/-! ## Quota engine (src/internal/auth/quota.go) -/

/-- `QuotaEngine.getUserOverride` (quota.go:89): point query on
`user_quota_overrides`; a present row with NULL `rpm_limit` yields
`UnlimitedRPM`, an absent row yields `none` ("not found"). -/
def getUserOverride (db : DB) (userID featureID : Int) : Option Int :=
  (db.userOverrides.find? (fun o => o.userId == userID && o.featureId == featureID)).map
    (fun o => match o.rpmLimit with
      | none => UnlimitedRPM
      | some v => v)

/-- `QuotaEngine.getGroupQuota` (quota.go:110): point query on
`group_feature_quotas`, NULL mapped to `UnlimitedRPM`. -/
def getGroupQuota (db : DB) (groupID featureID : Int) : Option Int :=
  (db.groupQuotas.find? (fun q => q.groupId == groupID && q.featureId == featureID)).map
    (fun q => match q.rpmLimit with
      | none => UnlimitedRPM
      | some v => v)

/-- The `for _, feature := range ancestors` loop of `GetEffectiveRPM`
(quota.go:58-66): first group quota found along the ancestor list wins. -/
def groupQuotaWalk (db : DB) (groupID : Int) : List FeatureRow → Option Int
  | [] => none
  | f :: rest =>
    match getGroupQuota db groupID f.id with
    | some rpm => some rpm
    | none => groupQuotaWalk db groupID rest

/-- `QuotaEngine.GetEffectiveRPM` (quota.go:32-75).  Steps, exactly as in the
source: (1) user override; (2) load user (INNER JOIN with groups; absent ⇒
`DefaultSystemRPM`); (3) feature ancestry; (4) group quota along the ancestry;
(5) the user's group default (the join guarantees `user.Group != nil`, so the
source's step 6 system-default fallback is unreachable once a user was found).
`none` models the (unbounded) ancestor loop still running after `fuel`
iterations. -/
def GetEffectiveRPM (db : DB) (fuel : Nat) (userID featureID : Int) : Option Int :=
  match getUserOverride db userID featureID with
  | some rpm => some rpm
  | none =>
    match GetUserByID db userID with
    | none => some DefaultSystemRPM
    | some (user, group) =>
      match GetFeatureAncestors db fuel featureID with
      | none => none
      | some ancestors =>
        match groupQuotaWalk db user.groupId ancestors with
        | some rpm => some rpm
        | none => some group.defaultRpm

/-- `QuotaEngine.GetEffectiveRPMBySlug` (quota.go:78-87): slug lookup; an
unknown slug short-circuits to `DefaultSystemRPM` with no error. -/
def GetEffectiveRPMBySlug (db : DB) (fuel : Nat) (userID : Int) (featureSlug : String) :
    Option Int :=
  match GetFeatureBySlug db featureSlug with
  | none => some DefaultSystemRPM
  | some feature => GetEffectiveRPM db fuel userID feature.id

/-- Spec-side effective-RPM resolution, following the specification's priority
order verbatim over raw rows: (1) the user-override row for the exact pair, its
NULL limit yielding the `-1` sentinel; (2) else the first group-quota row for
`(user.groupId, ancestor.id)` along the given ancestor chain (most specific
first), NULL again yielding `-1`; (3) else the user's group `defaultRpm`;
(4) the system default 60 only when the user/group join produced nothing. -/
def effectiveRPMSpec (db : DB) (userID featureID : Int) (ancestors : List FeatureRow) : Int :=
  match db.userOverrides.find? (fun o => o.userId == userID && o.featureId == featureID) with
  | some o => o.rpmLimit.getD UnlimitedRPM
  | none =>
    match GetUserByID db userID with
    | none => DefaultSystemRPM
    | some (user, group) =>
      match ancestors.findSome? (fun f =>
          db.groupQuotas.find? (fun q => q.groupId == user.groupId && q.featureId == f.id)) with
      | some q => q.rpmLimit.getD UnlimitedRPM
      | none => group.defaultRpm

lemma groupQuotaWalk_eq_findSome (db : DB) (groupID : Int) (l : List FeatureRow) :
    groupQuotaWalk db groupID l =
      (l.findSome? (fun f =>
        db.groupQuotas.find? (fun q => q.groupId == groupID && q.featureId == f.id))).map
        (fun q => q.rpmLimit.getD UnlimitedRPM) := by
  induction l with
  | nil => rfl
  | cons f rest ih =>
    simp only [groupQuotaWalk, getGroupQuota, List.findSome?_cons]
    cases h : db.groupQuotas.find? (fun q => q.groupId == groupID && q.featureId == f.id) with
    | none => simpa using ih
    | some q =>
      cases hq : q.rpmLimit <;> simp [Option.getD, hq]

/-- C1: for every `(userId, featureId)` pair the effective RPM limit is resolved
in exactly the claimed priority order — user-override row (NULL ⇒ `-1`), else the
first group-quota row along the feature's ancestor chain from most specific to
least specific (NULL ⇒ `-1`), else the user's group `defaultRpm`, and the system
default 60 exactly when the user/group join is missing — stated as agreement of
the code's `GetEffectiveRPM` with the spec-side `effectiveRPMSpec`, given that
the ancestor walk terminated with chain `ancestors`. -/
theorem GetEffectiveRPM_resolution (db : DB) (fuel : Nat) (userID featureID : Int)
    (ancestors : List FeatureRow)
    (h : GetFeatureAncestors db fuel featureID = some ancestors) :
    GetEffectiveRPM db fuel userID featureID =
      some (effectiveRPMSpec db userID featureID ancestors) := by
  cases ho : db.userOverrides.find? (fun o => o.userId == userID && o.featureId == featureID) with
  | some o =>
    cases hl : o.rpmLimit <;>
      simp [GetEffectiveRPM, effectiveRPMSpec, getUserOverride, ho, hl]
  | none =>
    cases hu : GetUserByID db userID with
    | none => simp [GetEffectiveRPM, effectiveRPMSpec, getUserOverride, ho, hu]
    | some ug =>
      obtain ⟨user, group⟩ := ug
      cases hf : ancestors.findSome? (fun f =>
          db.groupQuotas.find? (fun q => q.groupId == user.groupId && q.featureId == f.id)) with
      | none =>
        simp [GetEffectiveRPM, effectiveRPMSpec, getUserOverride, ho, hu, h,
          groupQuotaWalk_eq_findSome, hf]
      | some q =>
        cases hq : q.rpmLimit <;>
          simp [GetEffectiveRPM, effectiveRPMSpec, getUserOverride, ho, hu, h,
            groupQuotaWalk_eq_findSome, hf, hq]

/-- Sample database for the C1 witness: user 1 in group 10 (default 7), feature 3
(`maps.tiles`) child of feature 2 (`maps`), a group quota of 42 on the parent. -/
def quotaWitnessDB : DB :=
  { groups := [⟨10, "g", 7⟩]
    academicDomains := []
    users := [⟨1, "e", "user", "active", 10, 5⟩]
    features := [⟨2, "maps", none, false⟩, ⟨3, "maps.tiles", some 2, false⟩]
    groupQuotas := [⟨10, 2, some 42⟩]
    userOverrides := []
    tokens := []
    tokenFeatures := []
    tokenIps := []
    oauthStates := [] }

/-- Witness for C1 at a concrete database: the ancestor walk of feature 3
terminates and the resolved limit is the spec-side resolution (the parent's
group quota, 42). -/
theorem GetEffectiveRPM_resolution_witness :
    GetEffectiveRPM quotaWitnessDB 3 1 3 =
      some (effectiveRPMSpec quotaWitnessDB 1 3
        [⟨3, "maps.tiles", some 2, false⟩, ⟨2, "maps", none, false⟩]) :=
  GetEffectiveRPM_resolution quotaWitnessDB 3 1 3
    [⟨3, "maps.tiles", some 2, false⟩, ⟨2, "maps", none, false⟩] (by decide)

/-- C3: `TokenHasFeatureAccess` is `false` when the target slug names no feature;
when it names feature `f` and the ancestor walk of `f` terminated with chain
`ancs`, the result is `true` iff `f`'s own id or the id of one of its ancestors
appears in the token's feature-id set (so scope on an ancestor grants the
descendant). -/
theorem TokenHasFeatureAccess_iff (db : DB) (fuel : Nat) (tokenFeatureIDs : List Int)
    (slug : String) :
    (GetFeatureBySlug db slug = none →
      TokenHasFeatureAccess db fuel tokenFeatureIDs slug = some false)
    ∧ (∀ f, GetFeatureBySlug db slug = some f →
       ∀ ancs, GetFeatureAncestors db fuel f.id = some ancs →
        (TokenHasFeatureAccess db fuel tokenFeatureIDs slug = some true ↔
          f.id ∈ tokenFeatureIDs ∨ ∃ a ∈ ancs, a.id ∈ tokenFeatureIDs)) := by
  constructor
  · intro h
    simp [TokenHasFeatureAccess, h]
  · intro f hf ancs hancs
    by_cases hc : tokenFeatureIDs.contains f.id
    · have hm : f.id ∈ tokenFeatureIDs := by rw [List.elem_iff] at hc; exact hc
      simp [TokenHasFeatureAccess, hf, hc, hm]
    · have hm : f.id ∉ tokenFeatureIDs := by rw [List.elem_iff] at hc; exact hc
      simp [TokenHasFeatureAccess, hf, hc, hancs, List.any_eq_true, List.elem_iff, hm]

/-- Sample database for the C3 witness: feature 3 (`maps.tiles`) is a child of
feature 2 (`maps`). -/
def accessWitnessDB : DB :=
  { groups := []
    academicDomains := []
    users := []
    features := [⟨2, "maps", none, false⟩, ⟨3, "maps.tiles", some 2, false⟩]
    groupQuotas := []
    userOverrides := []
    tokens := []
    tokenFeatures := []
    tokenIps := []
    oauthStates := [] }

/-- Witness for C3: a token scoped to the ancestor `maps` (id 2) is granted
access to `maps.tiles`. -/
theorem TokenHasFeatureAccess_iff_witness :
    TokenHasFeatureAccess accessWitnessDB 3 [2] "maps.tiles" = some true :=
  ((TokenHasFeatureAccess_iff accessWitnessDB 3 [2] "maps.tiles").2
      ⟨3, "maps.tiles", some 2, false⟩ (by decide)
      [⟨3, "maps.tiles", some 2, false⟩, ⟨2, "maps", none, false⟩] (by decide)).mpr
    (Or.inr ⟨⟨2, "maps", none, false⟩, by decide, by decide⟩)

/-- Database with a single self-parented feature row (id 1, `parent_id = 1`).
Such a row is reachable: `AdminHandler.UpdateFeature` (PATCH
/admin/features/:id) forwards any `parentId` to `FeatureRegistry.UpdateFeature`
with no cycle check. -/
def cycleDB : DB :=
  { groups := []
    academicDomains := []
    users := []
    features := [⟨1, "loop", some 1, false⟩]
    groupQuotas := []
    userOverrides := []
    tokens := []
    tokenFeatures := []
    tokenIps := []
    oauthStates := [] }

/-- C5: on a cyclic parent chain the `GetFeatureAncestors` loop NEVER exits —
for every iteration budget the loop is still running (`none`), so the code
neither stops at an implementation-bounded depth nor returns an error,
contradicting the claim. -/
theorem GetFeatureAncestors_cycle_diverges :
    ∀ fuel : Nat, GetFeatureAncestors cycleDB fuel 1 = none := by
  intro fuel
  show ancestorsLoop cycleDB fuel (some 1) = none
  induction fuel with
  | zero => rfl
  | succ n ih =>
    have hfind : GetFeatureByID cycleDB 1 = some ⟨1, "loop", some 1, false⟩ := by decide
    simp [ancestorsLoop, hfind, ih]

/-- Database with a quota-override row for user 99 but no user row at all, a
state reachable through PUT /admin/users/99/quotas (`SetUserQuotas` performs no
user-existence check and SQLite foreign keys are not enabled by the driver). -/
def danglingOverrideDB : DB :=
  { groups := []
    academicDomains := []
    users := []
    features := []
    groupQuotas := []
    userOverrides := [⟨99, 7, some 5⟩]
    tokens := []
    tokenFeatures := []
    tokenIps := []
    oauthStates := [] }

/-- Counterexample for C9: user 99 has no user row, yet `GetEffectiveRPM`
returns the dangling override value 5, not the system default 60 — the override
lookup precedes the user lookup. -/
theorem GetEffectiveRPM_missingUser_override :
    danglingOverrideDB.users.find? (fun u => u.id == 99) = none
    ∧ GetEffectiveRPM danglingOverrideDB 1 99 7 = some 5
    ∧ (5 : Int) ≠ DefaultSystemRPM := by
  refine ⟨rfl, rfl, by decide⟩

/-- C9 (amended): an unknown feature slug resolves to the system default 60 with
no error; and a `userId` with no user row resolves to 60 with no error provided
no user-override row exists for the pair (the override check runs first). -/
theorem effectiveRPM_missing_defaults (db : DB) (fuel : Nat) (userID featureID : Int)
    (slug : String) :
    (GetFeatureBySlug db slug = none →
      GetEffectiveRPMBySlug db fuel userID slug = some DefaultSystemRPM)
    ∧ (db.userOverrides.find?
          (fun o => o.userId == userID && o.featureId == featureID) = none →
       db.users.find? (fun u => u.id == userID) = none →
       GetEffectiveRPM db fuel userID featureID = some DefaultSystemRPM) := by
  constructor
  · intro h
    simp [GetEffectiveRPMBySlug, h]
  · intro ho hu
    simp [GetEffectiveRPM, getUserOverride, ho, GetUserByID, hu]

/-- Witness for the amended C9 on the empty database: both hypotheses hold and
both resolutions return the system default. -/
theorem effectiveRPM_missing_defaults_witness :
    GetEffectiveRPMBySlug ⟨[], [], [], [], [], [], [], [], [], []⟩ 0 1 "nope"
        = some DefaultSystemRPM
    ∧ GetEffectiveRPM ⟨[], [], [], [], [], [], [], [], [], []⟩ 0 1 1
        = some DefaultSystemRPM :=
  ⟨(effectiveRPM_missing_defaults ⟨[], [], [], [], [], [], [], [], [], []⟩ 0 1 1 "nope").1 rfl,
   (effectiveRPM_missing_defaults ⟨[], [], [], [], [], [], [], [], [], []⟩ 0 1 1 "nope").2 rfl rfl⟩

/-! ## OAuth state registry (src/internal/auth/oauth_state.go) -/

/-- `OAuthStateStore.ValidateState` (oauth_state.go:49-65): one conditional
`DELETE FROM oauth_states WHERE state = ? AND expires_at > ?` (parameter
`time.Now()`), returning `RowsAffected() > 0`.  The SQL statement is atomic, so
any interleaving of two validations is one of the two sequential orders. -/
def ValidateState (db : DB) (now : Int) (state : String) : DB × Bool :=
  ({ db with oauthStates :=
      db.oauthStates.filter (fun r => !(r.state == state && now < r.expiresAt)) },
   db.oauthStates.any (fun r => r.state == state && now < r.expiresAt))

/-- C4: `ValidateState` returns `true` iff a row with that state existed with
`expiresAt` strictly in the future, and the call removes every such row, so a
second validation of the same state at any later (or equal) time returns
`false` — at most one of two consumptions of a state can succeed. -/
theorem ValidateState_single_use (db : DB) (now now' : Int) (state : String) :
    ((ValidateState db now state).2 = true ↔
      ∃ r ∈ db.oauthStates, r.state = state ∧ now < r.expiresAt)
    ∧ (now ≤ now' →
        (ValidateState (ValidateState db now state).1 now' state).2 = false) := by
  constructor
  · simp [ValidateState, List.any_eq_true]
  · intro hle
    simp only [ValidateState]
    rw [List.any_eq_false]
    intro r hr
    rw [List.mem_filter] at hr
    obtain ⟨_, hkeep⟩ := hr
    rw [Bool.not_eq_true'] at hkeep
    by_cases hs : r.state = state
    · have hst : (r.state == state) = true := by simp [hs]
      rw [hst, Bool.true_and] at hkeep ⊢
      rw [decide_eq_false_iff_not] at hkeep
      rw [Bool.not_eq_true, decide_eq_false_iff_not]
      omega
    · have hst : (r.state == state) = false := by simp [hs]
      simp [hst]

/-- Witness for C4: with one fresh state row, the first consumption succeeds and
the immediate replay fails. -/
theorem ValidateState_single_use_witness :
    (ValidateState ⟨[], [], [], [], [], [], [], [], [], [⟨"s", 100⟩]⟩ 0 "s").2 = true
    ∧ (ValidateState
        (ValidateState ⟨[], [], [], [], [], [], [], [], [], [⟨"s", 100⟩]⟩ 0 "s").1 1 "s").2
        = false :=
  ⟨(ValidateState_single_use ⟨[], [], [], [], [], [], [], [], [], [⟨"s", 100⟩]⟩ 0 1 "s").1.mpr
      ⟨⟨"s", 100⟩, by decide, rfl, by decide⟩,
   (ValidateState_single_use ⟨[], [], [], [], [], [], [], [], [], [⟨"s", 100⟩]⟩ 0 1 "s").2
      (by decide)⟩

/-! ## Token-guard rate-limit step (src/internal/auth/middleware.go:141-180) -/

/-- Outcome of step 8 of `Middleware.RequireToken`: either the limit is the
`UnlimitedRPM` sentinel (no headers, no check), or the request proceeds with the
three rate-limit headers set, or it is aborted with the headers, the
`Retry-After` header, HTTP status 429 and the JSON body fields
`error`/`limit`/`retryAfter`. -/
inductive QuotaStepResult where
  | unlimited : QuotaStepResult
  | allowed (headers : List (String × String)) : QuotaStepResult
  | denied (headers : List (String × String)) (retryAfterHeader : String × String)
      (status : Nat) (errBody : String) (limitBody : Int) (retryAfterBody : Int) :
      QuotaStepResult
  deriving DecidableEq

/-- Step 8 of `Middleware.RequireToken` (middleware.go:141-180), transliterated:
value comparisons on the effective limit and the current 60-second usage count,
header values rendered with `strconv.Itoa` (here `toString`), reset time
`time.Now().Add(60s).Unix() = now + 60` for `now` in unix seconds. -/
def requireTokenQuotaStep (effectiveRPM currentRPM now : Int) : QuotaStepResult :=
  if effectiveRPM != UnlimitedRPM then
    let remaining0 := effectiveRPM - currentRPM - 1
    let remaining := if remaining0 < 0 then 0 else remaining0
    let resetTime := now + 60
    let headers := [("X-RateLimit-Limit", toString effectiveRPM),
                    ("X-RateLimit-Remaining", toString remaining),
                    ("X-RateLimit-Reset", toString resetTime)]
    if currentRPM ≥ effectiveRPM then
      QuotaStepResult.denied headers ("Retry-After", "60") 429 ("rate limit exceeded")
        effectiveRPM 60
    else QuotaStepResult.allowed headers
  else QuotaStepResult.unlimited

/-- C6: whenever the token guard enforces a limit that is not `Unlimited`, it
sets `X-RateLimit-Limit` to the effective limit, `X-RateLimit-Remaining` to
`max (limit - currentCount - 1) 0`, and `X-RateLimit-Reset` to a unix time 60
seconds in the future; and it denies iff `currentCount ≥ limit`, responding 429
with `Retry-After: 60` and body `error = "rate limit exceeded"`, `limit`,
`retryAfter = 60`. -/
theorem requireTokenQuotaStep_spec (effectiveRPM currentRPM now : Int)
    (h : effectiveRPM ≠ UnlimitedRPM) :
    requireTokenQuotaStep effectiveRPM currentRPM now =
      (if currentRPM ≥ effectiveRPM then
        QuotaStepResult.denied
          [("X-RateLimit-Limit", toString effectiveRPM),
           ("X-RateLimit-Remaining", toString (max (effectiveRPM - currentRPM - 1) 0)),
           ("X-RateLimit-Reset", toString (now + 60))]
          ("Retry-After", "60") 429 ("rate limit exceeded") effectiveRPM 60
      else
        QuotaStepResult.allowed
          [("X-RateLimit-Limit", toString effectiveRPM),
           ("X-RateLimit-Remaining", toString (max (effectiveRPM - currentRPM - 1) 0)),
           ("X-RateLimit-Reset", toString (now + 60))]) := by
  have hb : (effectiveRPM != UnlimitedRPM) = true := by
    simpa using h
  rcases lt_or_le (effectiveRPM - currentRPM - 1) 0 with hrem | hrem
  · have hm : max (effectiveRPM - currentRPM - 1) 0 = 0 := max_eq_right hrem.le
    by_cases hd : currentRPM ≥ effectiveRPM <;>
      simp [requireTokenQuotaStep, hb, hd, hrem, hm]
  · have hrem' : ¬ (effectiveRPM - currentRPM - 1 < 0) := not_lt.mpr hrem
    have hm : max (effectiveRPM - currentRPM - 1) 0 = effectiveRPM - currentRPM - 1 :=
      max_eq_left hrem
    by_cases hd : currentRPM ≥ effectiveRPM <;>
      simp [requireTokenQuotaStep, hb, hd, hrem', hm]

/-- Witness for C6: limit 2, current count 5 — denial with `Remaining: 0`,
429 and `Retry-After: 60`. -/
theorem requireTokenQuotaStep_spec_witness :
    requireTokenQuotaStep 2 5 100 =
      QuotaStepResult.denied
        [("X-RateLimit-Limit", "2"), ("X-RateLimit-Remaining", "0"),
         ("X-RateLimit-Reset", "160")]
        ("Retry-After", "60") 429 ("rate limit exceeded") 2 60 := by
  have h := requireTokenQuotaStep_spec 2 5 100 (by decide)
  simpa using h

/-! ## Login-flow group policy (`Handler.determineGroupForEmail`) -/

/-- `strings.Split` on a single-character separator, over `List Char`: adjacent
separators yield empty fields, no separator yields the whole input as the only
field. -/
def splitElem (sep : Char) : List Char → List (List Char)
  | [] => [[]]
  | c :: cs =>
    if c = sep then [] :: splitElem sep cs
    else
      match splitElem sep cs with
      | [] => [[c]]
      | f :: rest => (c :: f) :: rest

/-- `Handler.determineGroupForEmail`: `strings.Split(email, "@")`; when the
split does NOT yield exactly two parts, fall straight to the `regular` group;
otherwise lower-case the part after the `@` (ASCII case mapping; the claims
involve ASCII domains only) and consult the academic-domain set; every group
lookup falls back to id 1 when the group row is missing (the error-fallbacks of
the Go code cannot fire in the pure store model). -/
def determineGroupForEmail (db : DB) (email : String) : Int :=
  let parts := splitElem '@' email.data
  if parts.length ≠ 2 then
    match GetGroupByName db ("regular") with
    | none => 1
    | some g => g.id
  else
    let domain := String.mk ((parts.getD 1 []).map Char.toLower)
    if IsAcademicDomain db domain then
      match GetGroupByName db ("academic") with
      | none => 1
      | some g => g.id
    else
      match GetGroupByName db ("regular") with
      | none => 1
      | some g => g.id

/-- Database for the C7 counterexample: `regular` is group 2, `academic` is
group 3, and `uni.gr` is an academic domain. -/
def multiAtDB : DB :=
  { groups := [⟨2, "regular", 60⟩, ⟨3, "academic", 120⟩]
    academicDomains := ["uni.gr"]
    users := []
    features := []
    groupQuotas := []
    userOverrides := []
    tokens := []
    tokenFeatures := []
    tokenIps := []
    oauthStates := [] }

/-- Counterexample for C7: the email `a@b@uni.gr` has `uni.gr` — an academic
domain — after its LAST `@`, yet the code returns the `regular` group (id 2),
not the `academic` group (id 3): `strings.Split` yields three parts, and any
count other than two short-circuits to `regular`. -/
theorem determineGroupForEmail_not_lastAt :
    determineGroupForEmail multiAtDB ("a@b@uni.gr") = 2
    ∧ IsAcademicDomain multiAtDB ("uni.gr") = true
    ∧ GetGroupByName multiAtDB ("academic") = some ⟨3, "academic", 120⟩
    ∧ (2 : Int) ≠ 3 := by
  refine ⟨by decide, by decide, by decide, by decide⟩

/-- C7 (amended): `determineGroupForEmail` splits on every `@`; only an email
with exactly one `@` is classified by its (lower-cased) domain — academic when
the domain is in the academic set, regular otherwise; an email with zero or
several `@`s gets the regular group with no domain lookup; a missing group row
falls back to id 1. -/
theorem determineGroupForEmail_spec (db : DB) (email : String) :
    ((splitElem '@' email.data).length ≠ 2 →
      determineGroupForEmail db email = (GetGroupByName db ("regular")).elim 1 (fun g => g.id))
    ∧ (∀ dom, (splitElem '@' email.data).length = 2 →
        dom = String.mk (((splitElem '@' email.data).getD 1 []).map Char.toLower) →
        (IsAcademicDomain db dom = true →
          determineGroupForEmail db email
            = (GetGroupByName db ("academic")).elim 1 (fun g => g.id))
        ∧ (IsAcademicDomain db dom = false →
          determineGroupForEmail db email
            = (GetGroupByName db ("regular")).elim 1 (fun g => g.id))) := by
  constructor
  · intro hlen
    cases hg : GetGroupByName db ("regular") <;>
      simp [determineGroupForEmail, hlen, hg, Option.elim]
  · intro dom hlen hdom
    subst hdom
    constructor
    · intro hac
      simp [hlen] at hac
      cases hg : GetGroupByName db ("academic") <;>
        simp [determineGroupForEmail, hlen, hac, hg, Option.elim]
    · intro hac
      simp [hlen] at hac
      cases hg : GetGroupByName db ("regular") <;>
        simp [determineGroupForEmail, hlen, hac, hg, Option.elim]

/-- Witness for the amended C7: a single-`@` academic email resolves to the
academic group id 3. -/
theorem determineGroupForEmail_spec_witness :
    determineGroupForEmail multiAtDB ("x@uni.gr") = 3 := by
  have h := ((determineGroupForEmail_spec multiAtDB ("x@uni.gr")).2 ("uni.gr")
    (by decide) (by decide)).1 (by decide)
  exact h.trans (by decide)

/-! ## Token service (`TokenStore`, tokens source file) -/

/-- `FeatureRegistry.GetFeaturesBySlugs` (features.go:163): `SELECT ... WHERE
slug IN (...)`; each table row matches at most once however often its slug is
repeated in the request.  The `ORDER BY slug` of the source only permutes the
result and is irrelevant to every property below, so rows are kept in table
order. -/
def GetFeaturesBySlugs (db : DB) (slugs : List String) : List FeatureRow :=
  if slugs.isEmpty then []
  else db.features.filter (fun f => slugs.contains f.slug)

/-- Errors of `TokenStore.CreateUserToken` / `CreateAdminToken`, one constructor
per `fmt.Errorf` return. -/
inductive CreateTokenError where
  | labelRequired : CreateTokenError
  | userNotFound : CreateTokenError
  | tokenLimitReached : CreateTokenError
  | noValidFeature : CreateTokenError
  | featuresNotFound : CreateTokenError
  | featureAdminOnly (slug : String) : CreateTokenError
  | ipInvalid : CreateTokenError
  deriving DecidableEq

/-- `strings.TrimSpace` modelled on ASCII whitespace. -/
def trimChars (l : List Char) : List Char :=
  ((l.dropWhile Char.isWhitespace).reverse.dropWhile Char.isWhitespace).reverse

/-- The transactional insert of `TokenStore.createToken`: one `tokens` row plus
its `token_features` and `token_allowed_ips` rows, committed together.  `newId`
stands for the autoincrement id handed out by the store. -/
def createToken (db : DB) (newId userID : Int) (tokenHash label : String)
    (adminCreated : Bool) (expiresAt : Option Int) (features : List FeatureRow)
    (allowedIPs : List String) : DB :=
  { db with
    tokens := db.tokens ++
      [{ id := newId, userId := userID, tokenHash := tokenHash, label := label,
         adminCreated := adminCreated, expiresAt := expiresAt, revokedAt := none }],
    tokenFeatures := db.tokenFeatures ++
      features.map (fun f => { tokenId := newId, featureId := f.id }),
    tokenIps := db.tokenIps ++
      allowedIPs.map (fun ip => { tokenId := newId, ipAddress := ip }) }

/-- `TokenStore.CreateUserToken` up to (and including) its validation chain:
trimmed label, user lookup, non-revoked token count against `maxTokens`, slug
resolution (`len(features) == 0`, then `len(features) != len(featureSlugs)`),
admin-only rejection.  IP canonicalization and the random token generation are
abstracted into the `canonicalizeIPs`/`tokenHash` parameters, which the Go code
reaches only after all checks above pass. -/
def CreateUserToken (db : DB) (canonicalizeIPs : List String → Option (List String))
    (newId userID : Int) (tokenHash label : String) (featureSlugs : List String)
    (allowedIPs : List String) (expiresAt : Option Int) :
    Except CreateTokenError DB :=
  let label := String.mk (trimChars label.data)
  if label = "" then Except.error CreateTokenError.labelRequired
  else
    match GetUserByID db userID with
    | none => Except.error CreateTokenError.userNotFound
    | some (user, _) =>
      if (GetUserTokenCount db userID : Int) ≥ user.maxTokens then
        Except.error CreateTokenError.tokenLimitReached
      else
        let features := GetFeaturesBySlugs db featureSlugs
        if features.length = 0 then Except.error CreateTokenError.noValidFeature
        else if features.length ≠ featureSlugs.length then
          Except.error CreateTokenError.featuresNotFound
        else
          match features.find? (fun f => f.adminOnly) with
          | some f => Except.error (CreateTokenError.featureAdminOnly f.slug)
          | none =>
            match canonicalizeIPs allowedIPs with
            | none => Except.error CreateTokenError.ipInvalid
            | some canonicalIPs =>
              Except.ok (createToken db newId userID tokenHash label false expiresAt
                features canonicalIPs)

/-- `TokenStore.CreateAdminToken`: as `CreateUserToken` but with no user load,
no quota check and no admin-only check, and `adminCreated = true`. -/
def CreateAdminToken (db : DB) (canonicalizeIPs : List String → Option (List String))
    (newId userID : Int) (tokenHash label : String) (featureSlugs : List String)
    (allowedIPs : List String) (expiresAt : Option Int) :
    Except CreateTokenError DB :=
  let label := String.mk (trimChars label.data)
  if label = "" then Except.error CreateTokenError.labelRequired
  else
    let features := GetFeaturesBySlugs db featureSlugs
    if features.length = 0 then Except.error CreateTokenError.noValidFeature
    else if features.length ≠ featureSlugs.length then
      Except.error CreateTokenError.featuresNotFound
    else
      match canonicalizeIPs allowedIPs with
      | none => Except.error CreateTokenError.ipInvalid
      | some canonicalIPs =>
        Except.ok (createToken db newId userID tokenHash label true expiresAt
          features canonicalIPs)

/-- Errors of `TokenStore.ValidateToken`, one constructor per error return. -/
inductive ValidateTokenError where
  | formatInvalid : ValidateTokenError
  | unknown : ValidateTokenError
  | revoked : ValidateTokenError
  | expired : ValidateTokenError
  | userNotFound : ValidateTokenError
  | userNotActive : ValidateTokenError
  deriving DecidableEq

/-- The result of a successful `ValidateToken` (`ValidatedToken` in the source). -/
structure ValidatedToken where
  token : TokenRow
  user : UserRow
  group : GroupRow
  featureIds : List Int
  allowedIPs : List String
  deriving DecidableEq

/-- `TokenStore.getTokenFeatureIDs`: `SELECT feature_id FROM token_features
WHERE token_id = ?`. -/
def getTokenFeatureIDs (db : DB) (tokenID : Int) : List Int :=
  (db.tokenFeatures.filter (fun tf => tf.tokenId == tokenID)).map (fun tf => tf.featureId)

/-- `TokenStore.getTokenAllowedIPs`. -/
def getTokenAllowedIPs (db : DB) (tokenID : Int) : List String :=
  (db.tokenIps.filter (fun ti => ti.tokenId == tokenID)).map (fun ti => ti.ipAddress)

/-- `TokenStore.ValidateToken`, transliterated.  `hashToken` (SHA-256 hex) is
abstracted as the `hash` parameter: the source never inverts it and only
compares stored hashes against `hash rawToken`. -/
def ValidateToken (hash : String → String) (db : DB) (now : Int) (rawToken : String) :
    Except ValidateTokenError ValidatedToken :=
  if ¬ (("osduth_").data.isPrefixOf rawToken.data) then Except.error ValidateTokenError.formatInvalid
  else
    let tokenHash := hash rawToken
    match db.tokens.find? (fun t => t.tokenHash == tokenHash) with
    | none => Except.error ValidateTokenError.unknown
    | some t =>
      if t.revokedAt.isSome then Except.error ValidateTokenError.revoked
      else if (match t.expiresAt with
               | some e => decide (e < now)
               | none => false) then Except.error ValidateTokenError.expired
      else
        match GetUserByID db t.userId with
        | none => Except.error ValidateTokenError.userNotFound
        | some (user, group) =>
          if user.status ≠ "active" then Except.error ValidateTokenError.userNotActive
          else Except.ok
            { token := t, user := user, group := group,
              featureIds := getTokenFeatureIDs db t.id,
              allowedIPs := getTokenAllowedIPs db t.id }

lemma filter_tokenFeatures_fresh (l : List TokenFeatureRow) (newId : Int)
    (h : ∀ tf ∈ l, tf.tokenId ≠ newId) :
    l.filter (fun tf => tf.tokenId == newId) = [] :=
  List.filter_eq_nil_iff.mpr (fun tf htf => by simpa using h tf htf)

lemma filter_tokenIps_fresh (l : List TokenIpRow) (newId : Int)
    (h : ∀ ti ∈ l, ti.tokenId ≠ newId) :
    l.filter (fun ti => ti.tokenId == newId) = [] :=
  List.filter_eq_nil_iff.mpr (fun ti hti => by simpa using h ti hti)

/-- C2: `ValidateToken` fails with a format error without the `osduth_` prefix;
fails `unknown` when no stored row's hash equals the hash of the raw token;
with a matching row, fails `revoked` when `revokedAt` is set, `expired` when
`expiresAt` is set and strictly in the past, `userNotFound` when the owning
user (with its group join) is absent, `userNotActive` when its status is not
`active`; and a freshly issued token that is non-revoked, non-expired and owned
by an active user validates to a `ValidatedToken` carrying the same `userId`
and exactly the feature-id set (and IP set) it was issued with. -/
theorem ValidateToken_spec (hash : String → String) (db : DB) (now : Int) (raw : String) :
    (¬ (("osduth_").data.isPrefixOf raw.data) →
      ValidateToken hash db now raw = Except.error ValidateTokenError.formatInvalid)
    ∧ ((("osduth_").data.isPrefixOf raw.data) →
        (∀ t ∈ db.tokens, t.tokenHash ≠ hash raw) →
        ValidateToken hash db now raw = Except.error ValidateTokenError.unknown)
    ∧ (∀ t, (("osduth_").data.isPrefixOf raw.data) →
        db.tokens.find? (fun t2 => t2.tokenHash == hash raw) = some t →
        (t.revokedAt.isSome →
          ValidateToken hash db now raw = Except.error ValidateTokenError.revoked)
        ∧ (t.revokedAt = none → ∀ e, t.expiresAt = some e → e < now →
            ValidateToken hash db now raw = Except.error ValidateTokenError.expired)
        ∧ (t.revokedAt = none → (∀ e, t.expiresAt = some e → ¬ e < now) →
            GetUserByID db t.userId = none →
            ValidateToken hash db now raw = Except.error ValidateTokenError.userNotFound)
        ∧ (∀ user group, t.revokedAt = none → (∀ e, t.expiresAt = some e → ¬ e < now) →
            GetUserByID db t.userId = some (user, group) → user.status ≠ "active" →
            ValidateToken hash db now raw = Except.error ValidateTokenError.userNotActive))
    ∧ (∀ newId userID tokenHash label adminCreated expiresAt features allowedIPs,
        (("osduth_").data.isPrefixOf raw.data) →
        hash raw = tokenHash →
        (∀ t ∈ db.tokens, t.tokenHash ≠ tokenHash) →
        (∀ tf ∈ db.tokenFeatures, tf.tokenId ≠ newId) →
        (∀ ti ∈ db.tokenIps, ti.tokenId ≠ newId) →
        (∀ e, expiresAt = some e → ¬ e < now) →
        ∀ user group, GetUserByID db userID = some (user, group) →
        user.status = "active" →
        ValidateToken hash
            (createToken db newId userID tokenHash label adminCreated expiresAt
              features allowedIPs) now raw =
          Except.ok
            { token := { id := newId, userId := userID, tokenHash := tokenHash,
                         label := label, adminCreated := adminCreated,
                         expiresAt := expiresAt, revokedAt := none },
              user := user, group := group,
              featureIds := features.map (fun f => f.id),
              allowedIPs := allowedIPs }) := by
  refine ⟨?_, ?_, ?_, ?_⟩
  · intro h
    simp [ValidateToken, h]
  · intro hp hnone
    have hfind : db.tokens.find? (fun t => t.tokenHash == hash raw) = none :=
      List.find?_eq_none.mpr (fun t ht => by simpa using hnone t ht)
    simp [ValidateToken, hp, hfind]
  · intro t hp hfind
    refine ⟨?_, ?_, ?_, ?_⟩
    · intro hrev
      simp [ValidateToken, hp, hfind, hrev]
    · intro hrev e he hlt
      simp [ValidateToken, hp, hfind, hrev, he, hlt]
    · intro hrev hexp huser
      cases hE : t.expiresAt with
      | none => simp [ValidateToken, hp, hfind, hrev, hE, huser]
      | some e =>
        have := hexp e hE
        simp [ValidateToken, hp, hfind, hrev, hE, this, huser]
    · intro user group hrev hexp huser hstat
      cases hE : t.expiresAt with
      | none => simp [ValidateToken, hp, hfind, hrev, hE, huser, hstat]
      | some e =>
        have := hexp e hE
        simp [ValidateToken, hp, hfind, hrev, hE, this, huser, hstat]
  · intro newId userID tokenHash label adminCreated expiresAt features allowedIPs
      hp hh hfresh htffresh htifresh hexp user group huser hstat
    subst hh
    have hnone : db.tokens.find? (fun t => t.tokenHash == hash raw) = none :=
      List.find?_eq_none.mpr (fun t ht => by simpa using hfresh t ht)
    have htokens : (createToken db newId userID (hash raw) label adminCreated
        expiresAt features allowedIPs).tokens = db.tokens ++
        [{ id := newId, userId := userID, tokenHash := hash raw, label := label,
           adminCreated := adminCreated, expiresAt := expiresAt, revokedAt := none }] := rfl
    have hGU : GetUserByID (createToken db newId userID (hash raw) label adminCreated
        expiresAt features allowedIPs) userID = some (user, group) := huser
    have hfeat : getTokenFeatureIDs (createToken db newId userID (hash raw) label
        adminCreated expiresAt features allowedIPs) newId = features.map (fun f => f.id) := by
      unfold getTokenFeatureIDs createToken
      rw [List.filter_append, filter_tokenFeatures_fresh db.tokenFeatures newId htffresh]
      rw [List.filter_eq_self.mpr (by
        intro tf htf
        simp only [List.mem_map] at htf
        obtain ⟨f, _, rfl⟩ := htf
        simp)]
      simp [Function.comp]
    have hips : getTokenAllowedIPs (createToken db newId userID (hash raw) label
        adminCreated expiresAt features allowedIPs) newId = allowedIPs := by
      unfold getTokenAllowedIPs createToken
      rw [List.filter_append, filter_tokenIps_fresh db.tokenIps newId htifresh]
      rw [List.filter_eq_self.mpr (by
        intro ti hti
        simp only [List.mem_map] at hti
        obtain ⟨ip, _, rfl⟩ := hti
        simp)]
      simp only [List.nil_append, List.map_map]
      have hcomp : ((fun ti : TokenIpRow => ti.ipAddress) ∘
          fun ip => ({ tokenId := newId, ipAddress := ip } : TokenIpRow)) = id := rfl
      rw [hcomp, List.map_id]
    cases hE : expiresAt with
    | none =>
      subst hE
      simp [ValidateToken, hp, htokens, List.find?_append, hnone, hGU, hstat, hfeat, hips]
    | some e =>
      subst hE
      have hne := hexp e rfl
      simp [ValidateToken, hp, htokens, List.find?_append, hnone, hGU, hstat, hfeat, hips, hne]

/-- Sample database for the C2 witness: one active user (id 1, group 10),
no tokens yet. -/
def tokenWitnessDB : DB :=
  { groups := [⟨10, "g", 60⟩]
    academicDomains := []
    users := [⟨1, "e", "user", "active", 10, 5⟩]
    features := [⟨5, "maps", none, false⟩]
    groupQuotas := []
    userOverrides := []
    tokens := []
    tokenFeatures := []
    tokenIps := []
    oauthStates := [] }

/-- Witness for C2: issuing a token (hash modelled as the identity function)
and validating its raw value returns the issuing user and exactly the issued
feature ids and allowed IPs. -/
theorem ValidateToken_spec_witness :
    ValidateToken (fun s => s)
        (createToken tokenWitnessDB 7 1 ("osduth_x") ("lbl") false none
          [⟨5, "maps", none, false⟩] ["ip1"]) 0 ("osduth_x") =
      Except.ok
        { token := { id := 7, userId := 1, tokenHash := "osduth_x", label := "lbl",
                     adminCreated := false, expiresAt := none, revokedAt := none },
          user := ⟨1, "e", "user", "active", 10, 5⟩, group := ⟨10, "g", 60⟩,
          featureIds := ([⟨5, "maps", none, false⟩] : List FeatureRow).map (fun f => f.id),
          allowedIPs := ["ip1"] } :=
  (ValidateToken_spec (fun s => s) tokenWitnessDB 0 ("osduth_x")).2.2.2
    7 1 ("osduth_x") ("lbl") false none [⟨5, "maps", none, false⟩] ["ip1"]
    (by decide) rfl (fun t ht => nomatch ht)
    (fun tf htf => nomatch htf) (fun ti hti => nomatch hti)
    (fun e he => nomatch he)
    ⟨1, "e", "user", "active", 10, 5⟩ ⟨10, "g", 60⟩ (by decide) rfl

/-- C10: when the request's slug list contains a duplicate, the slug resolution
returns strictly fewer (distinct) feature rows than the request has entries, so
both `CreateUserToken` and `CreateAdminToken` fail with the "one or more
features not found" error even though every slug names an existing feature. -/
theorem createTokens_reject_duplicate_slugs (db : DB)
    (canonicalizeIPs : List String → Option (List String))
    (newId userID : Int) (tokenHash label : String) (featureSlugs allowedIPs : List String)
    (expiresAt : Option Int) (user : UserRow) (group : GroupRow)
    (hlabel : String.mk (trimChars label.data) ≠ "")
    (hslugsUnique : (db.features.map (fun f => f.slug)).Nodup)
    (hdup : ¬ featureSlugs.Nodup)
    (hexists : ∀ s ∈ featureSlugs, ∃ f ∈ db.features, f.slug = s)
    (huser : GetUserByID db userID = some (user, group))
    (hcount : (GetUserTokenCount db userID : Int) < user.maxTokens) :
    CreateUserToken db canonicalizeIPs newId userID tokenHash label featureSlugs
        allowedIPs expiresAt = Except.error CreateTokenError.featuresNotFound
    ∧ CreateAdminToken db canonicalizeIPs newId userID tokenHash label featureSlugs
        allowedIPs expiresAt = Except.error CreateTokenError.featuresNotFound := by
  have hne : featureSlugs ≠ [] := by
    intro h
    exact hdup (h ▸ List.nodup_nil)
  have hnempty : featureSlugs.isEmpty = false := by
    cases featureSlugs with
    | nil => exact absurd rfl hne
    | cons a l => rfl
  have hfeats : GetFeaturesBySlugs db featureSlugs =
      db.features.filter (fun f => featureSlugs.contains f.slug) := by
    simp [GetFeaturesBySlugs, hnempty]
  -- the filtered rows have pairwise-distinct slugs, each of which occurs in
  -- `featureSlugs.dedup`, and a duplicated list strictly exceeds its dedup
  have hsub : ((db.features.filter (fun f => featureSlugs.contains f.slug)).map
      (fun f => f.slug)) ⊆ featureSlugs.dedup := by
    intro s hs
    simp only [List.mem_map, List.mem_filter] at hs
    obtain ⟨f, ⟨_, hf⟩, rfl⟩ := hs
    exact List.mem_dedup.mpr (by simpa using hf)
  have hnodup : ((db.features.filter (fun f => featureSlugs.contains f.slug)).map
      (fun f => f.slug)).Nodup :=
    List.Nodup.sublist (List.Sublist.map _ (List.filter_sublist _)) hslugsUnique
  have hlen1 : (db.features.filter (fun f => featureSlugs.contains f.slug)).length ≤
      featureSlugs.dedup.length := by
    have := (List.Nodup.subperm hnodup hsub).length_le
    simpa using this
  have hlen2 : featureSlugs.dedup.length < featureSlugs.length := by
    rcases Nat.lt_or_ge featureSlugs.dedup.length featureSlugs.length with h1 | h1
    · exact h1
    · exact absurd
        (List.Sublist.eq_of_length (featureSlugs.dedup_sublist)
          (le_antisymm (featureSlugs.dedup_sublist).length_le h1) ▸
            List.nodup_dedup featureSlugs) hdup
  have hlt : (GetFeaturesBySlugs db featureSlugs).length < featureSlugs.length := by
    rw [hfeats]; exact lt_of_le_of_lt hlen1 hlen2
  have hlen0 : (GetFeaturesBySlugs db featureSlugs).length ≠ 0 := by
    rcases List.exists_mem_of_ne_nil featureSlugs hne with ⟨s, hs⟩
    rcases hexists s hs with ⟨f, hfm, hfs⟩
    have : f ∈ GetFeaturesBySlugs db featureSlugs := by
      rw [hfeats, List.mem_filter]
      exact ⟨hfm, by simp [hfs, hs]⟩
    intro h0
    rw [List.length_eq_zero] at h0
    rw [h0] at this
    exact absurd this (List.not_mem_nil f)
  have hneq : (GetFeaturesBySlugs db featureSlugs).length ≠ featureSlugs.length :=
    Nat.ne_of_lt hlt
  have hquota : ¬ ((GetUserTokenCount db userID : Int) ≥ user.maxTokens) :=
    not_le.mpr hcount
  constructor
  · simp [CreateUserToken, hlabel, huser, hquota, hlen0, hneq]
  · simp [CreateAdminToken, hlabel, hlen0, hneq]

/-- Database for the C10 witness: two existing features, one active user. -/
def dupSlugWitnessDB : DB :=
  { groups := [⟨10, "g", 60⟩]
    academicDomains := []
    users := [⟨1, "e", "user", "active", 10, 5⟩]
    features := [⟨5, "maps", none, false⟩, ⟨6, "schedule", none, false⟩]
    groupQuotas := []
    userOverrides := []
    tokens := []
    tokenFeatures := []
    tokenIps := []
    oauthStates := [] }

/-- Witness for C10: the duplicated slug list `["maps", "maps"]` — both slugs
existing — is rejected by both creation paths. -/
theorem createTokens_reject_duplicate_slugs_witness :
    CreateUserToken dupSlugWitnessDB (fun ips => some ips) 7 1 ("h") ("lbl")
        ["maps", "maps"] [] none = Except.error CreateTokenError.featuresNotFound
    ∧ CreateAdminToken dupSlugWitnessDB (fun ips => some ips) 7 1 ("h") ("lbl")
        ["maps", "maps"] [] none = Except.error CreateTokenError.featuresNotFound :=
  createTokens_reject_duplicate_slugs dupSlugWitnessDB (fun ips => some ips) 7 1 ("h")
    ("lbl") ["maps", "maps"] [] none ⟨1, "e", "user", "active", 10, 5⟩ ⟨10, "g", 60⟩
    (by decide) (by decide) (by decide)
    (by
      intro s hs
      have hms : s = "maps" := by simpa using hs
      exact ⟨⟨5, "maps", none, false⟩, by decide, hms.symm⟩)
    (by decide) (by decide)

/-! ## IP canonicalization (src/internal/auth/data.go `CanonicalizeIP`)

`CanonicalizeIP` is `net.ParseIP` followed by `.To16().String()`.  We model the
Go standard library pair faithfully: `ParseIP` (Go ≥1.17: `netip.parseAddr`
dispatching on the first `.`/`:`/`%`, rejecting zones) and `net.IP.String`
(dotted quad through the `To4` test for IPv4-mapped addresses, otherwise the
RFC 5952 form with `::` compressing the first longest run of at least two zero
groups).  An IP value is the parser's 16-byte form: a `List Nat` of length 16
with entries below 256; strings are handled as `List Char`. -/

/-- Decimal digit test, by code point (`'0'`-`'9'`). -/
def isDecDigitChar (c : Char) : Bool :=
  48 ≤ c.toNat && c.toNat ≤ 57

/-- Hex digit test exactly as in the Go scanner: `0-9`, `a-f`, `A-F`. -/
def isHexDigitChar (c : Char) : Bool :=
  (48 ≤ c.toNat && c.toNat ≤ 57) || (97 ≤ c.toNat && c.toNat ≤ 102)
    || (65 ≤ c.toNat && c.toNat ≤ 70)

/-- Value of a hex digit (callers guarantee `isHexDigitChar`). -/
def hexDigitVal (c : Char) : Nat :=
  if 48 ≤ c.toNat && c.toNat ≤ 57 then c.toNat - 48
  else if 97 ≤ c.toNat && c.toNat ≤ 102 then c.toNat - 87
  else c.toNat - 55

/-- Lowercase hex digit characters, as in Go's `hexDigit` table. -/
def hexDigitChar (n : Nat) : Char :=
  if n < 10 then Char.ofNat (48 + n) else Char.ofNat (87 + n)

/-- Decimal digit characters. -/
def decDigitChar (n : Nat) : Char :=
  Char.ofNat (48 + n)

/-- Shared digit-string builder (big-endian, minimal digits, `"0"` for zero);
`fuel ≥ n` suffices, the callers pass `n + 1`.  Go's `appendHex` walks nibbles
from the top skipping leading zeros and `uitoa` divides repeatedly; both
produce exactly this minimal digit string. -/
def natToCharsAux (b : Nat) (dig : Nat → Char) : Nat → Nat → List Char → List Char
  | 0, _, acc => acc
  | fuel + 1, n, acc =>
    if n < b then dig n :: acc
    else natToCharsAux b dig fuel (n / b) (dig (n % b) :: acc)

/-- Go `appendHex`: minimal lowercase hex digits of a group value. -/
def hexChars (n : Nat) : List Char :=
  natToCharsAux 16 hexDigitChar (n + 1) n []

/-- Go `uitoa`: minimal decimal digits of a byte value. -/
def uitoa (n : Nat) : List Char :=
  natToCharsAux 10 decDigitChar (n + 1) n []

/-- Horner evaluation of a big-endian hex digit string. -/
def hexValFold (ds : List Char) : Nat :=
  ds.foldl (fun a c => 16 * a + hexDigitVal c) 0

/-- Horner evaluation of a big-endian decimal digit string. -/
def decValFold (ds : List Char) : Nat :=
  ds.foldl (fun a c => 10 * a + (c.toNat - 48)) 0

lemma natToCharsAux_acc (b : Nat) (dig : Nat → Char) :
    ∀ fuel n acc, natToCharsAux b dig fuel n acc = natToCharsAux b dig fuel n [] ++ acc := by
  intro fuel
  induction fuel with
  | zero => intro n acc; rfl
  | succ m ih =>
    intro n acc
    by_cases h : n < b
    · simp [natToCharsAux, h]
    · rw [natToCharsAux, if_neg h, natToCharsAux, if_neg h, ih (n / b), ih (n / b)
        [dig (n % b)]]
      simp

lemma natToCharsAux_fuel (b : Nat) (dig : Nat → Char) (hb : 2 ≤ b) :
    ∀ n fuel fuel', n < fuel → n < fuel' →
      natToCharsAux b dig fuel n [] = natToCharsAux b dig fuel' n [] := by
  intro n
  induction n using Nat.strong_induction_on with
  | _ n ih =>
    intro fuel fuel' hf hf'
    cases fuel with
    | zero => omega
    | succ m =>
      cases fuel' with
      | zero => omega
      | succ m' =>
        by_cases h : n < b
        · simp [natToCharsAux, h]
        · have hdiv : n / b < n := Nat.div_lt_self (by omega) (by omega)
          have hdm : n / b < m := by
            have : n / b + 1 ≤ n := by
              have h2 : n / b ≤ n / 2 := Nat.div_le_div_left hb (by omega)
              have h3 : n / 2 < n := Nat.div_lt_self (by omega) (by omega)
              omega
            omega
          have hdm' : n / b < m' := by
            have : n / b + 1 ≤ n := by
              have h2 : n / b ≤ n / 2 := Nat.div_le_div_left hb (by omega)
              have h3 : n / 2 < n := Nat.div_lt_self (by omega) (by omega)
              omega
            omega
          rw [natToCharsAux, if_neg h, natToCharsAux, if_neg h,
            natToCharsAux_acc, natToCharsAux_acc b dig m']
          rw [ih (n / b) hdiv m m' hdm hdm']

/-- Unfolding for a value needing another digit. -/
lemma natToChars_step (b : Nat) (dig : Nat → Char) (hb : 2 ≤ b) (n : Nat) (h : b ≤ n) :
    natToCharsAux b dig (n + 1) n [] =
      natToCharsAux b dig (n / b + 1) (n / b) [] ++ [dig (n % b)] := by
  rw [natToCharsAux, if_neg (by omega), natToCharsAux_acc]
  rw [natToCharsAux_fuel b dig hb (n / b) n (n / b + 1)
    (by
      have h2 : n / b ≤ n / 2 := Nat.div_le_div_left hb (by omega)
      have h3 : n / 2 < n := Nat.div_lt_self (by omega) (by omega)
      omega)
    (by omega)]

lemma hexChars_ne_nil (n : Nat) : hexChars n ≠ [] := by
  unfold hexChars
  by_cases h : n < 16
  · simp [natToCharsAux, h]
  · rw [show n + 1 = (n) + 1 from rfl, natToCharsAux, if_neg h, natToCharsAux_acc]
    intro hcon
    exact absurd (List.append_eq_nil.mp hcon).2 (by simp)

lemma hexDigitVal_hexDigitChar : ∀ i : Fin 16, hexDigitVal (hexDigitChar i.val) = i.val := by
  decide

lemma isHexDigitChar_hexDigitChar : ∀ i : Fin 16, isHexDigitChar (hexDigitChar i.val) = true := by
  decide

lemma hexChars_all_hex (n : Nat) : ∀ c ∈ hexChars n, isHexDigitChar c = true := by
  induction n using Nat.strong_induction_on with
  | _ n ih =>
    by_cases h : n < 16
    · unfold hexChars
      simp only [natToCharsAux, if_pos h]
      intro c hc
      simp only [List.mem_singleton] at hc
      subst hc
      exact isHexDigitChar_hexDigitChar ⟨n, h⟩
    · unfold hexChars
      rw [natToChars_step 16 hexDigitChar (by omega) n (by omega)]
      intro c hc
      rcases List.mem_append.mp hc with hc | hc
      · exact ih (n / 16) (Nat.div_lt_self (by omega) (by omega)) c hc
      · simp only [List.mem_singleton] at hc
        subst hc
        exact isHexDigitChar_hexDigitChar ⟨n % 16, Nat.mod_lt n (by omega)⟩

lemma hexValFold_append_one (ds : List Char) (c : Char) :
    hexValFold (ds ++ [c]) = 16 * hexValFold ds + hexDigitVal c := by
  simp [hexValFold, List.foldl_append]

lemma hexValFold_hexChars (n : Nat) (h : n ≤ 65535) : hexValFold (hexChars n) = n := by
  induction n using Nat.strong_induction_on with
  | _ n ih =>
    by_cases hlt : n < 16
    · unfold hexChars
      simp only [natToCharsAux, if_pos hlt]
      have := hexDigitVal_hexDigitChar ⟨n, hlt⟩
      simp [hexValFold, this]
    · unfold hexChars
      rw [natToChars_step 16 hexDigitChar (by omega) n (by omega)]
      have hdiv : n / 16 < n := Nat.div_lt_self (by omega) (by omega)
      rw [hexValFold_append_one]
      rw [show natToCharsAux 16 hexDigitChar (n / 16 + 1) (n / 16) [] = hexChars (n / 16)
        from rfl]
      rw [ih (n / 16) hdiv (by omega)]
      have hthis : hexDigitVal (hexDigitChar (n % 16)) = n % 16 :=
        hexDigitVal_hexDigitChar ⟨n % 16, Nat.mod_lt n (by omega)⟩
      rw [hthis]
      omega

/-- Join fields with a single-character separator (`strings.Join` shape; used
for both the dotted quad and the colon-separated hex groups of the renderer). -/
def joinSep (sep : Char) : List (List Char) → List Char
  | [] => []
  | [x] => x
  | x :: xs => x ++ sep :: joinSep sep xs

/-- One field of `netip`'s IPv4 parser: nonempty, all decimal digits, no
leading zero, value at most 255 (the per-digit `> 255` check of the source is
equivalent to bounding the full value, and any field passing the other checks
has at most three digits). -/
def parseOctet (ds : List Char) : Option Nat :=
  if ds.isEmpty then none
  else if ¬ (ds.all isDecDigitChar) then none
  else if 1 < ds.length ∧ ds.head? = some '0' then none
  else
    let v := decValFold ds
    if 255 < v then none else some v

/-- `netip.parseIPv4`: exactly four `.`-separated octet fields. -/
def parseIPv4 (cs : List Char) : Option (List Nat) :=
  match splitElem '.' cs with
  | [a, b, c, d] =>
    match parseOctet a, parseOctet b, parseOctet c, parseOctet d with
    | some x, some y, some z, some w => some [x, y, z, w]
    | _, _, _, _ => none
  | _ => none

/-- `v4InV6`: the IPv4-mapped 16-byte form. -/
def v4InV6 (b4 : List Nat) : List Nat :=
  [0, 0, 0, 0, 0, 0, 0, 0, 0, 0, 255, 255] ++ b4

/-- The hex-group scan of `netip.parseIPv6`: consume leading hex digits; at
least one digit is required and the value must fit 16 bits (the source checks
`acc > 0xFFFF` after each digit; the accumulator is monotone, so this is the
same as bounding the full value). -/
def hexTake (cs : List Char) : Option (Nat × List Char) :=
  let ds := cs.takeWhile isHexDigitChar
  if ds.isEmpty then none
  else if 65535 < hexValFold ds then none
  else some (hexValFold ds, cs.dropWhile isHexDigitChar)

/-- 16-bit groups of a 16-byte address, big-endian pairs. -/
def groupsOf : List Nat → List Nat
  | a :: b :: rest => (a * 256 + b) :: groupsOf rest
  | _ => []

/-- Bytes of a group list (inverse of `groupsOf` on valid input). -/
def bytesOfGroups : List Nat → List Nat
  | [] => []
  | g :: rest => g / 256 :: g % 256 :: bytesOfGroups rest

set_option maxRecDepth 4000 in
lemma parseOctet_uitoa : ∀ n : Fin 256, parseOctet (uitoa n.val) = some n.val := by
  decide

set_option maxRecDepth 4000 in
lemma uitoa_all_dec : ∀ n : Fin 256, (uitoa n.val).all isDecDigitChar = true := by
  decide

lemma splitElem_no_sep (sep : Char) (l : List Char) (h : sep ∉ l) :
    splitElem sep l = [l] := by
  induction l with
  | nil => rfl
  | cons c cs ih =>
    have hc : ¬ (c = sep) := fun he => h (he ▸ List.mem_cons_self c cs)
    rw [splitElem, if_neg hc, ih (fun hm => h (List.mem_cons_of_mem c hm))]

lemma splitElem_append_sep (sep : Char) (x t : List Char) (h : sep ∉ x) :
    splitElem sep (x ++ sep :: t) = x :: splitElem sep t := by
  induction x with
  | nil => simp [splitElem]
  | cons c x' ih =>
    have hc : ¬ (c = sep) := fun he => h (he ▸ List.mem_cons_self c x')
    rw [List.cons_append, splitElem, if_neg hc,
      ih (fun hm => h (List.mem_cons_of_mem c hm))]

lemma splitElem_joinSep (sep : Char) :
    ∀ fs : List (List Char), (∀ f ∈ fs, sep ∉ f) → fs ≠ [] →
      splitElem sep (joinSep sep fs) = fs
  | [], _, hne => absurd rfl hne
  | [x], h, _ => by
    rw [joinSep, splitElem_no_sep sep x (h x (by simp))]
  | x :: y :: t, h, _ => by
    have hrec : splitElem sep (joinSep sep (y :: t)) = y :: t :=
      splitElem_joinSep sep (y :: t) (fun f hf => h f (List.mem_cons_of_mem x hf))
        (fun hcon => nomatch hcon)
    have hj : joinSep sep (x :: y :: t) = x ++ sep :: joinSep sep (y :: t) := rfl
    rw [hj, splitElem_append_sep sep x (joinSep sep (y :: t)) (h x (by simp)), hrec]

lemma bytesOfGroups_append (xs ys : List Nat) :
    bytesOfGroups (xs ++ ys) = bytesOfGroups xs ++ bytesOfGroups ys := by
  induction xs with
  | nil => rfl
  | cons g rest ih => simp [bytesOfGroups, ih]

lemma bytesOfGroups_replicate (l : Nat) :
    bytesOfGroups (List.replicate l 0) = List.replicate (2 * l) 0 := by
  induction l with
  | zero => rfl
  | succ m ih =>
    rw [List.replicate_succ, bytesOfGroups, ih,
      show 2 * (m + 1) = (2 * m) + 1 + 1 by omega,
      List.replicate_succ, List.replicate_succ]

lemma length_bytesOfGroups (gs : List Nat) : (bytesOfGroups gs).length = 2 * gs.length := by
  induction gs with
  | nil => rfl
  | cons g rest ih => simp [bytesOfGroups, ih]; omega

lemma bytesOf_groupsOf : ∀ l : List Nat, l.length % 2 = 0 → (∀ x ∈ l, x < 256) →
    bytesOfGroups (groupsOf l) = l
  | [], _, _ => rfl
  | [a], h, _ => by simp at h
  | a :: b :: rest, h, hb => by
    have hrest : rest.length % 2 = 0 := by
      simp only [List.length_cons] at h
      omega
    have ha : a < 256 := hb a (by simp)
    have hbb : b < 256 := hb b (by simp)
    have e1 : (a * 256 + b) / 256 = a := by omega
    have e2 : (a * 256 + b) % 256 = b := by omega
    rw [groupsOf, bytesOfGroups, e1, e2,
      bytesOf_groupsOf rest hrest (fun x hx => hb x (by simp [hx]))]

lemma groupsOf_length : ∀ l : List Nat, (groupsOf l).length = l.length / 2
  | [] => rfl
  | [a] => by simp [groupsOf]
  | a :: b :: rest => by
    rw [groupsOf]
    simp only [List.length_cons]
    rw [groupsOf_length rest]
    omega

lemma groupsOf_le : ∀ l : List Nat, (∀ x ∈ l, x < 256) → ∀ g ∈ groupsOf l, g ≤ 65535
  | [], _, _, hg => absurd hg (List.not_mem_nil _)
  | [a], _, _, hg => by simp [groupsOf] at hg
  | a :: b :: rest, hb, g, hg => by
    rw [groupsOf] at hg
    rcases List.mem_cons.mp hg with hg | hg
    · have ha : a < 256 := hb a (by simp)
      have hbb : b < 256 := hb b (by simp)
      omega
    · exact groupsOf_le rest (fun x hx => hb x (by simp [hx])) g hg

lemma takeWhile_append_of_all {p : Char → Bool} {xs ys : List Char}
    (h : ∀ c ∈ xs, p c = true) :
    (xs ++ ys).takeWhile p = xs ++ ys.takeWhile p := by
  induction xs with
  | nil => rfl
  | cons c cs ih =>
    have hc := h c (by simp)
    simp [List.takeWhile_cons, hc, ih (fun d hd => h d (by simp [hd]))]

lemma dropWhile_append_of_all {p : Char → Bool} {xs ys : List Char}
    (h : ∀ c ∈ xs, p c = true) :
    (xs ++ ys).dropWhile p = ys.dropWhile p := by
  induction xs with
  | nil => rfl
  | cons c cs ih =>
    have hc := h c (by simp)
    simp [List.dropWhile_cons, hc, ih (fun d hd => h d (by simp [hd]))]

lemma hexTake_group (g : Nat) (rest : List Char) (hg : g ≤ 65535)
    (hrest : rest.takeWhile isHexDigitChar = []) :
    hexTake (hexChars g ++ rest) = some (g, rest) := by
  have hall := hexChars_all_hex g
  have ht : (hexChars g ++ rest).takeWhile isHexDigitChar = hexChars g :=
    (takeWhile_append_of_all hall).trans (by rw [hrest, List.append_nil])
  have hd : (hexChars g ++ rest).dropWhile isHexDigitChar = rest := by
    rw [dropWhile_append_of_all hall]
    have := List.takeWhile_append_dropWhile (p := isHexDigitChar) (l := rest)
    rw [hrest] at this
    simpa using this
  rw [hexTake]
  simp only [ht, hd, hexValFold_hexChars g hg]
  have hne : (hexChars g).isEmpty = false := by
    cases hcc : hexChars g with
    | nil => exact absurd hcc (hexChars_ne_nil g)
    | cons a l => rfl
  rw [hne]
  simp [Nat.not_lt.mpr hg]

/-- The main loop of `netip.parseIPv6`, transliterated.  `acc` is the byte
array written so far (the loop guard is `i < 16`), `ell` the `::` position.
Each iteration writes at least two bytes, so the loop runs at most eight times;
`fuel = 16` at the entry points can therefore never be exhausted (the `0` case
is unreachable). -/
def p6loop : Nat → List Char → List Nat → Option Nat → Option (List Nat × Option Nat)
  | 0, _, _, _ => none
  | fuel + 1, cs, acc, ell =>
    if 16 ≤ acc.length then
      if cs.isEmpty then some (acc, ell) else none
    else
      match hexTake cs with
      | none => none
      | some (v, rest) =>
        if rest.head? = some '.' then
          -- trailing embedded IPv4: the source re-parses the whole remainder
          -- (including the digits just scanned) as a dotted quad
          if ell.isNone ∧ acc.length ≠ 12 then none
          else if 16 < acc.length + 4 then none
          else
            match parseIPv4 cs with
            | none => none
            | some b4 => some (acc ++ b4, ell)
        else
          let acc2 := acc ++ [v / 256, v % 256]
          if rest.isEmpty then some (acc2, ell)
          else if ¬ (rest.head? = some ':') then none
          else if rest.length = 1 then none
          else
            let s2 := rest.tail
            if s2.head? = some ':' then
              if ell.isSome then none
              else
                let s3 := s2.tail
                if s3.isEmpty then some (acc2, some acc2.length)
                else p6loop fuel s3 acc2 (some acc2.length)
            else p6loop fuel s2 acc2 ell

/-- The post-loop of `netip.parseIPv6`: fewer than 16 bytes requires a `::`
(whose expansion shifts the bytes after it to the end and zero-fills); a full
16 bytes with a `::` is an error ("must expand to at least one field"). -/
def p6finish : Option (List Nat × Option Nat) → Option (List Nat)
  | none => none
  | some (acc, ell) =>
    if acc.length < 16 then
      match ell with
      | none => none
      | some e => some (acc.take e ++ List.replicate (16 - acc.length) 0 ++ acc.drop e)
    else
      match ell with
      | some _ => none
      | none => some acc

/-- `netip.parseIPv6`: the leading `::` special case (`len(s) >= 2 && s[0] ==
':' && s[1] == ':'`, here: the first two characters are `[':', ':']`), then the
loop. -/
def parseIPv6 (cs : List Char) : Option (List Nat) :=
  if cs.take 2 = [':', ':'] then
    if (cs.drop 2).isEmpty then some (List.replicate 16 0)
    else p6finish (p6loop 16 (cs.drop 2) [] (some 0))
  else p6finish (p6loop 16 cs [] none)

/-- `net.ParseIP` (via `netip.parseAddr`): dispatch on the first `.`, `:` or
`%`; `%` (a zone) is rejected, and `net.ParseIP` always yields the 16-byte
form (`v4InV6` for dotted quads). -/
def parseIPChars (cs : List Char) : Option (List Nat) :=
  match cs.find? (fun c => c == '.' || c == ':' || c == '%') with
  | none => none
  | some c =>
    if c = '.' then (parseIPv4 cs).map v4InV6
    else if c = ':' then parseIPv6 cs
    else none

/-- `net.ParseIP`. -/
def ParseIP (s : String) : Option (List Nat) :=
  parseIPChars s.data

/-- Length of the leading run of zero groups. -/
def leadZeros : List Nat → Nat
  | [] => 0
  | x :: rest => if x = 0 then leadZeros rest + 1 else 0

/-- The zero-run selection of `netip.Addr.String` for IPv6: scan every start
index, keep the first strictly-longest run of length at least 2. -/
def bestZeroRun (gs : List Nat) : Option (Nat × Nat) :=
  (List.range gs.length).foldl
    (fun best i =>
      let l := leadZeros (gs.drop i)
      if 2 ≤ l ∧ (match best with
                  | none => 0
                  | some (_, bl) => bl) < l then some (i, l)
      else best)
    none

/-- The RFC 5952 rendering of eight groups: `::` replaces the selected run. -/
def renderGroups (gs : List Nat) : List Char :=
  match bestZeroRun gs with
  | none => joinSep ':' (gs.map hexChars)
  | some (e0, l) =>
    joinSep ':' ((gs.take e0).map hexChars) ++ ':' :: ':' ::
      joinSep ':' ((gs.drop (e0 + l)).map hexChars)

/-- `isZeros` of net/ip.go. -/
def isZeros (l : List Nat) : Bool :=
  l.all (fun b => b == 0)

/-- The `To4` test of net/ip.go on a 16-byte value: ten zero bytes then
`0xff, 0xff`. -/
def isV4InV6 (ip : List Nat) : Bool :=
  isZeros (ip.take 10) && (ip.getD 10 0 == 255) && (ip.getD 11 0 == 255)

/-- `net.IP.String` on the 16-byte form: dotted quad through `To4`, else the
RFC 5952 group rendering. -/
def ipStringChars (ip : List Nat) : List Char :=
  if isV4InV6 ip then joinSep '.' ((ip.drop 12).map uitoa)
  else renderGroups (groupsOf ip)

/-- `net.IP.String`. -/
def ipString (ip : List Nat) : String :=
  String.mk (ipStringChars ip)

/-- `CanonicalizeIP` (src/internal/auth/data.go:318-332): `net.ParseIP` then
`.To16().String()`.  `ParseIP`'s result is always the 16-byte form, so `To16`
is the identity and its failure branch is unreachable. -/
def CanonicalizeIP (s : String) : Option String :=
  match ParseIP s with
  | none => none
  | some parsed => some (ipString parsed)

/-- `CanonicalizeIPs` (data.go:336): canonicalize each entry, failing on the
first invalid one. -/
def CanonicalizeIPs (ips : List String) : Option (List String) :=
  match ips with
  | [] => some []
  | ip :: rest =>
    match CanonicalizeIP ip, CanonicalizeIPs rest with
    | some c, some cs => some (c :: cs)
    | _, _ => none

lemma hexTake_le {cs : List Char} {v : Nat} {rest : List Char}
    (h : hexTake cs = some (v, rest)) : v ≤ 65535 := by
  rw [hexTake] at h
  split at h
  · exact absurd h (by simp)
  · split at h
    · exact absurd h (by simp)
    · rename_i hv
      simp only [Option.some.injEq, Prod.mk.injEq] at h
      omega

lemma parseOctet_lt {ds : List Char} {v : Nat} (h : parseOctet ds = some v) : v < 256 := by
  rw [parseOctet] at h
  split at h
  · exact absurd h (by simp)
  · split at h
    · exact absurd h (by simp)
    · split at h
      · exact absurd h (by simp)
      · dsimp only at h
        split at h
        · exact absurd h (by simp)
        · rename_i hv
          simp only [Option.some.injEq] at h
          omega

lemma parseIPv4_valid {cs : List Char} {b : List Nat} (h : parseIPv4 cs = some b) :
    b.length = 4 ∧ ∀ x ∈ b, x < 256 := by
  rw [parseIPv4] at h
  split at h
  · rename_i a0 a1 a2 a3
    split at h
    · rename_i x y z w hx hy hz hw
      simp only [Option.some.injEq] at h
      subst h
      refine ⟨rfl, ?_⟩
      intro u hu
      simp only [List.mem_cons, List.not_mem_nil, or_false] at hu
      rcases hu with rfl | rfl | rfl | rfl
      · exact parseOctet_lt hx
      · exact parseOctet_lt hy
      · exact parseOctet_lt hz
      · exact parseOctet_lt hw
    · exact absurd h (by simp)
  · exact absurd h (by simp)

lemma p6loop_valid : ∀ fuel cs acc ell acc' ell',
    p6loop fuel cs acc ell = some (acc', ell') →
    (∀ x ∈ acc, x < 256) → acc.length % 2 = 0 → acc.length ≤ 16 →
    (∀ e, ell = some e → e ≤ acc.length) →
    (∀ x ∈ acc', x < 256) ∧ acc'.length % 2 = 0 ∧ acc'.length ≤ 16 ∧
      (∀ e, ell' = some e → e ≤ acc'.length) := by
  intro fuel
  induction fuel with
  | zero =>
    intro cs acc ell acc' ell' h
    exact absurd h (by simp [p6loop])
  | succ n ih =>
    intro cs acc ell acc' ell' h hb hpar hle hell
    rw [p6loop] at h
    split at h
    · split at h
      · simp only [Option.some.injEq, Prod.mk.injEq] at h
        obtain ⟨rfl, rfl⟩ := h
        exact ⟨hb, hpar, hle, hell⟩
      · simp at h
    · rename_i hg
      split at h
      · simp at h
      · rename_i v rest hht
        have hv : v ≤ 65535 := hexTake_le hht
        have hb2 : ∀ x ∈ acc ++ [v / 256, v % 256], x < 256 := by
          intro x hx
          rcases List.mem_append.mp hx with hx | hx
          · exact hb x hx
          · simp only [List.mem_cons, List.not_mem_nil, or_false] at hx
            rcases hx with rfl | rfl
            · omega
            · omega
        have hpar2 : (acc ++ [v / 256, v % 256]).length % 2 = 0 := by
          simp only [List.length_append, List.length_cons, List.length_nil]
          omega
        have hle2 : (acc ++ [v / 256, v % 256]).length ≤ 16 := by
          simp only [List.length_append, List.length_cons, List.length_nil]
          omega
        have hell2 : ∀ e, ell = some e → e ≤ (acc ++ [v / 256, v % 256]).length := by
          intro e he
          have := hell e he
          simp only [List.length_append, List.length_cons, List.length_nil]
          omega
        split at h
        · -- embedded IPv4
          split at h
          · simp at h
          · split at h
            · simp at h
            · rename_i hlen4
              split at h
              · simp at h
              · rename_i b4 hv4
                simp only [Option.some.injEq, Prod.mk.injEq] at h
                obtain ⟨rfl, rfl⟩ := h
                obtain ⟨hb4len, hb4⟩ := parseIPv4_valid hv4
                refine ⟨?_, ?_, ?_, ?_⟩
                · intro x hx
                  rcases List.mem_append.mp hx with hx | hx
                  · exact hb x hx
                  · exact hb4 x hx
                · simp only [List.length_append, hb4len]; omega
                · simp only [List.length_append, hb4len]; omega
                · intro e he
                  have := hell e he
                  simp only [List.length_append, hb4len]
                  omega
        · -- ordinary 16-bit chunk
          dsimp only at h
          split at h
          · -- end of string
            simp only [Option.some.injEq, Prod.mk.injEq] at h
            obtain ⟨rfl, rfl⟩ := h
            exact ⟨hb2, hpar2, hle2, hell2⟩
          · split at h
            · simp at h
            · split at h
              · simp at h
              · split at h
                · -- "::"
                  split at h
                  · simp at h
                  · rename_i hellnone
                    split at h
                    · -- "::" at end of string
                      simp only [Option.some.injEq, Prod.mk.injEq] at h
                      obtain ⟨rfl, rfl⟩ := h
                      refine ⟨hb2, hpar2, hle2, ?_⟩
                      intro e he
                      simp only [Option.some.injEq] at he
                      omega
                    · exact ih _ (acc ++ [v / 256, v % 256])
                        (some (acc ++ [v / 256, v % 256]).length) acc' ell' h
                        hb2 hpar2 hle2
                        (fun e he => by
                          simp only [Option.some.injEq] at he
                          omega)
                · -- a further group follows
                  exact ih _ (acc ++ [v / 256, v % 256]) ell acc' ell' h
                    hb2 hpar2 hle2 hell2

lemma p6finish_valid {acc : List Nat} {ell : Option Nat} {ip : List Nat}
    (h : p6finish (some (acc, ell)) = some ip)
    (hb : ∀ x ∈ acc, x < 256) (hle : acc.length ≤ 16)
    (hell : ∀ e, ell = some e → e ≤ acc.length) :
    ip.length = 16 ∧ ∀ x ∈ ip, x < 256 := by
  cases ell with
  | none =>
    simp only [p6finish] at h
    split at h
    · simp at h
    · rename_i hge
      simp only [Option.some.injEq] at h
      subst h
      exact ⟨by omega, hb⟩
  | some e =>
    have hee : e ≤ acc.length := hell e rfl
    simp only [p6finish] at h
    split at h
    · rename_i hlt
      simp only [Option.some.injEq] at h
      subst h
      constructor
      · simp only [List.length_append, List.length_take, List.length_replicate,
          List.length_drop]
        omega
      · intro x hx
        rcases List.mem_append.mp hx with hx | hx
        · rcases List.mem_append.mp hx with hx | hx
          · exact hb x (List.mem_of_mem_take hx)
          · have := List.eq_of_mem_replicate hx
            omega
        · exact hb x (List.mem_of_mem_drop hx)
    · simp at h

lemma parseIPChars_valid {cs : List Char} {ip : List Nat}
    (h : parseIPChars cs = some ip) : ip.length = 16 ∧ ∀ x ∈ ip, x < 256 := by
  rw [parseIPChars] at h
  split at h
  · exact absurd h (by simp)
  · rename_i c hc
    split at h
    · -- IPv4
      cases hv4 : parseIPv4 cs with
      | none => rw [hv4] at h; simp at h
      | some b4 =>
        rw [hv4] at h
        rw [show Option.map v4InV6 (some b4) = some (v4InV6 b4) from rfl] at h
        simp only [Option.some.injEq] at h
        subst h
        obtain ⟨hl, hbb⟩ := parseIPv4_valid hv4
        constructor
        · simp [v4InV6, hl]
        · intro x hx
          rcases List.mem_append.mp hx with hx | hx
          · simp only [List.mem_cons, List.not_mem_nil, or_false] at hx
            rcases hx with rfl | rfl | rfl | rfl | rfl | rfl | rfl | rfl | rfl | rfl
              | rfl | rfl <;> omega
          · exact hbb x hx
    · split at h
      · -- IPv6
        rw [parseIPv6] at h
        split at h
        · split at h
          · simp only [Option.some.injEq] at h
            subst h
            refine ⟨by simp, ?_⟩
            intro x hx
            have := List.eq_of_mem_replicate hx
            omega
          · cases hloop : p6loop 16 (cs.drop 2) [] (some 0) with
            | none =>
              rw [hloop] at h
              exact absurd h (by rw [show p6finish none = none from rfl]; simp)
            | some pr =>
              obtain ⟨acc1, ell1⟩ := pr
              rw [hloop] at h
              obtain ⟨hb1, _, hle1, hell1⟩ := p6loop_valid 16 (cs.drop 2) [] (some 0)
                acc1 ell1 hloop (fun x hx => absurd hx (List.not_mem_nil x)) rfl (by simp)
                (fun e he => by simp at he; omega)
              exact p6finish_valid h hb1 hle1 hell1
        · cases hloop : p6loop 16 cs [] none with
          | none =>
            rw [hloop] at h
            exact absurd h (by rw [show p6finish none = none from rfl]; simp)
          | some pr =>
            obtain ⟨acc1, ell1⟩ := pr
            rw [hloop] at h
            obtain ⟨hb1, _, hle1, hell1⟩ := p6loop_valid 16 cs [] none acc1 ell1
              hloop (fun x hx => absurd hx (List.not_mem_nil x)) rfl (by simp)
              (fun e he => by simp at he)
            exact p6finish_valid h hb1 hle1 hell1
      · exact absurd h (by simp)

/-! ### Round-trip: parsing the rendered string recovers the 16-byte value -/

lemma leadZeros_le (l : List Nat) : leadZeros l ≤ l.length := by
  induction l with
  | nil => simp [leadZeros]
  | cons x rest ih =>
    rw [leadZeros]
    by_cases hx : x = 0
    · rw [if_pos hx]; simpa using ih
    · rw [if_neg hx]; simp

lemma take_leadZeros (l : List Nat) :
    l.take (leadZeros l) = List.replicate (leadZeros l) 0 := by
  induction l with
  | nil => simp [leadZeros]
  | cons x rest ih =>
    rw [leadZeros]
    by_cases hx : x = 0
    · rw [if_pos hx]
      subst hx
      rw [List.take_succ_cons, ih, List.replicate_succ]
    · rw [if_neg hx]
      simp

lemma bestZeroRun_spec (gs : List Nat) (e0 l : Nat)
    (h : bestZeroRun gs = some (e0, l)) :
    e0 < gs.length ∧ l = leadZeros (gs.drop e0) ∧ 2 ≤ l := by
  have key : ∀ (idxs : List Nat) (init : Option (Nat × Nat)),
      (∀ i ∈ idxs, i < gs.length) →
      (∀ a b, init = some (a, b) → a < gs.length ∧ b = leadZeros (gs.drop a) ∧ 2 ≤ b) →
      ∀ a b, (idxs.foldl
        (fun best i =>
          let zl := leadZeros (gs.drop i)
          if 2 ≤ zl ∧ (match best with
                       | none => 0
                       | some (_, bl) => bl) < zl then some (i, zl)
          else best) init) = some (a, b) →
        a < gs.length ∧ b = leadZeros (gs.drop a) ∧ 2 ≤ b := by
    intro idxs
    induction idxs with
    | nil => intro init _ hinit a b hfold; exact hinit a b hfold
    | cons i is ih =>
      intro init hmem hinit a b hfold
      rw [List.foldl_cons] at hfold
      refine ih _ (fun j hj => hmem j (by simp [hj])) ?_ a b hfold
      intro a' b' hstep
      dsimp only at hstep
      split at hstep
      · rename_i hcond
        simp only [Option.some.injEq, Prod.mk.injEq] at hstep
        obtain ⟨rfl, rfl⟩ := hstep
        exact ⟨hmem i (by simp), rfl, hcond.1⟩
      · exact hinit a' b' hstep
  exact key (List.range gs.length) none (by simp) (by simp) e0 l h

lemma run_decomp (gs : List Nat) (e0 l : Nat)
    (_he : e0 < gs.length) (hl : l = leadZeros (gs.drop e0)) :
    gs = gs.take e0 ++ List.replicate l 0 ++ gs.drop (e0 + l) := by
  have h1 : gs = gs.take e0 ++ gs.drop e0 := (List.take_append_drop e0 gs).symm
  have h2 : gs.drop e0 = (gs.drop e0).take l ++ (gs.drop e0).drop l :=
    (List.take_append_drop l (gs.drop e0)).symm
  have h3 : (gs.drop e0).take l = List.replicate l 0 := by
    rw [hl]; exact take_leadZeros (gs.drop e0)
  have h4 : (gs.drop e0).drop l = gs.drop (e0 + l) := by
    rw [List.drop_drop]
  calc gs = gs.take e0 ++ gs.drop e0 := h1
    _ = gs.take e0 ++ ((gs.drop e0).take l ++ (gs.drop e0).drop l) := by rw [← h2]
    _ = gs.take e0 ++ (List.replicate l 0 ++ gs.drop (e0 + l)) := by rw [h3, h4]
    _ = gs.take e0 ++ List.replicate l 0 ++ gs.drop (e0 + l) := by
        rw [List.append_assoc]

/-- The dispatch predicate of `parseAddr`. -/
def isSpecialChar (c : Char) : Bool :=
  c == '.' || c == ':' || c == '%'

lemma hex_not_special {c : Char} (h : isHexDigitChar c = true) :
    isSpecialChar c = false := by
  by_cases h1 : c = '.'
  · subst h1; exact absurd h (by decide)
  · by_cases h2 : c = ':'
    · subst h2; exact absurd h (by decide)
    · by_cases h3 : c = '%'
      · subst h3; exact absurd h (by decide)
      · simp [isSpecialChar, h1, h2, h3]

lemma dec_not_special {c : Char} (h : isDecDigitChar c = true) :
    isSpecialChar c = false := by
  have hx : isHexDigitChar c = true := by
    rw [isDecDigitChar] at h
    rw [isHexDigitChar]
    simp only [Bool.and_eq_true, decide_eq_true_eq, Bool.or_eq_true] at h ⊢
    omega
  exact hex_not_special hx

lemma dec_ne_dot {c : Char} (h : isDecDigitChar c = true) : ¬ (c = '.') := by
  intro hc
  subst hc
  exact absurd h (by decide)

lemma hex_ne_colon {c : Char} (h : isHexDigitChar c = true) : ¬ (c = ':') := by
  intro hc
  subst hc
  exact absurd h (by decide)

lemma find?_special_none {l : List Char} (h : ∀ c ∈ l, isSpecialChar c = false) :
    l.find? isSpecialChar = none :=
  List.find?_eq_none.mpr (fun c hc => by rw [h c hc]; simp)

lemma find?_special_hexthen (g : Nat) (t : List Char) :
    ((hexChars g ++ ':' :: t).find? isSpecialChar) = some ':' := by
  rw [List.find?_append, find?_special_none (fun c hc => hex_not_special
    (hexChars_all_hex g c hc))]
  rw [List.find?_cons_of_pos _ (by decide)]
  rfl

lemma find?_special_quad (b4 : List Nat) (hb : ∀ x ∈ b4, x < 256) (h4 : b4.length = 4) :
    (joinSep '.' (b4.map uitoa)).find? isSpecialChar = some '.' := by
  rcases b4 with _ | ⟨x, _ | ⟨y, _ | ⟨z, _ | ⟨w, _ | _⟩⟩⟩⟩ <;> simp at h4
  have hux : ∀ c ∈ uitoa x, isSpecialChar c = false := by
    intro c hc
    have hx : x < 256 := hb x (by simp)
    have := uitoa_all_dec ⟨x, hx⟩
    simp only [List.all_eq_true] at this
    exact dec_not_special (this c hc)
  have hjoin : joinSep '.' ([x, y, z, w].map uitoa) =
      uitoa x ++ '.' :: joinSep '.' ([y, z, w].map uitoa) := rfl
  rw [hjoin, List.find?_append, find?_special_none hux,
    List.find?_cons_of_pos _ (by decide)]
  rfl

lemma uitoa_no_dot {n : Nat} (hn : n < 256) : ¬ ('.' ∈ uitoa n) := by
  intro hdot
  have := uitoa_all_dec ⟨n, hn⟩
  simp only [List.all_eq_true] at this
  exact dec_ne_dot (this '.' hdot) rfl

lemma parseIPv4_quad (b4 : List Nat) (h4 : b4.length = 4) (hb : ∀ x ∈ b4, x < 256) :
    parseIPv4 (joinSep '.' (b4.map uitoa)) = some b4 := by
  rcases b4 with _ | ⟨x, _ | ⟨y, _ | ⟨z, _ | ⟨w, _ | _⟩⟩⟩⟩ <;> simp at h4
  have hx : x < 256 := hb x (by simp)
  have hy : y < 256 := hb y (by simp)
  have hz : z < 256 := hb z (by simp)
  have hw : w < 256 := hb w (by simp)
  have hsplit : splitElem '.' (joinSep '.' ([x, y, z, w].map uitoa)) =
      [x, y, z, w].map uitoa := by
    refine splitElem_joinSep '.' _ ?_ (by simp)
    intro f hf
    simp only [List.mem_map] at hf
    obtain ⟨n, hn, rfl⟩ := hf
    simp only [List.mem_cons, List.not_mem_nil, or_false] at hn
    rcases hn with rfl | rfl | rfl | rfl
    · exact uitoa_no_dot hx
    · exact uitoa_no_dot hy
    · exact uitoa_no_dot hz
    · exact uitoa_no_dot hw
  have hox : parseOctet (uitoa x) = some x := parseOctet_uitoa ⟨x, hx⟩
  have hoy : parseOctet (uitoa y) = some y := parseOctet_uitoa ⟨y, hy⟩
  have hoz : parseOctet (uitoa z) = some z := parseOctet_uitoa ⟨z, hz⟩
  have how : parseOctet (uitoa w) = some w := parseOctet_uitoa ⟨w, hw⟩
  rw [parseIPv4]
  simp only [List.map_cons, List.map_nil] at hsplit ⊢
  rw [hsplit]
  simp [hox, hoy, hoz, how]

lemma takeWhile_hex_colon (t : List Char) :
    (':' :: t).takeWhile isHexDigitChar = [] := by
  simp [List.takeWhile_cons, show isHexDigitChar ':' = false from by decide]

lemma joinSep_map_cons_ne (g : Nat) (t : List Nat) :
    ∃ tl, joinSep ':' ((g :: t).map hexChars) = hexChars g ++ tl := by
  cases t with
  | nil => exact ⟨[], by simp [joinSep]⟩
  | cons g2 t2 => exact ⟨':' :: joinSep ':' ((g2 :: t2).map hexChars), rfl⟩

/-- Running the loop over a colon-joined group list (no `::` inside): every
group is written as two bytes and the ellipsis state is untouched. -/
lemma p6run_noEll : ∀ (gs : List Nat) (fuel : Nat) (acc : List Nat) (ell : Option Nat),
    gs ≠ [] → (∀ g ∈ gs, g ≤ 65535) → gs.length ≤ fuel →
    acc.length + 2 * gs.length ≤ 16 →
    p6loop fuel (joinSep ':' (gs.map hexChars)) acc ell =
      some (acc ++ bytesOfGroups gs, ell)
  | [], _, _, _, hne, _, _, _ => absurd rfl hne
  | [g], fuel, acc, ell, _, hg, hf, hbound => by
    cases fuel with
    | zero => simp at hf
    | succ f =>
      have hht : hexTake (hexChars g) = some (g, []) := by
        have := hexTake_group g [] (hg g (by simp)) rfl
        simpa using this
      rw [show joinSep ':' ([g].map hexChars) = hexChars g from rfl, p6loop,
        if_neg (by simp at hbound; omega : ¬ 16 ≤ acc.length), hht]
      simp [bytesOfGroups]
  | g :: g2 :: t, fuel, acc, ell, _, hg, hf, hbound => by
    cases fuel with
    | zero => simp at hf
    | succ f =>
      obtain ⟨tl, htl⟩ := joinSep_map_cons_ne g2 t
      obtain ⟨c, cc, hcc⟩ : ∃ c cc, hexChars g2 = c :: cc := by
        cases hx : hexChars g2 with
        | nil => exact absurd hx (hexChars_ne_nil g2)
        | cons c cc => exact ⟨c, cc, rfl⟩
      have hchex : isHexDigitChar c = true :=
        hexChars_all_hex g2 c (by rw [hcc]; simp)
      have hJ : joinSep ':' ((g :: g2 :: t).map hexChars) =
          hexChars g ++ ':' :: joinSep ':' ((g2 :: t).map hexChars) := rfl
      have hht : hexTake (hexChars g ++ ':' :: joinSep ':' ((g2 :: t).map hexChars)) =
          some (g, ':' :: joinSep ':' ((g2 :: t).map hexChars)) :=
        hexTake_group g _ (hg g (by simp)) (takeWhile_hex_colon _)
      have hJc : joinSep ':' ((g2 :: t).map hexChars) = c :: (cc ++ tl) := by
        rw [htl, hcc, List.cons_append]
      rw [hJ, p6loop, if_neg (by simp at hbound ⊢; omega : ¬ 16 ≤ acc.length), hht, hJc]
      have hrec := p6run_noEll (g2 :: t) f (acc ++ [g / 256, g % 256]) ell
        (fun hcon => nomatch hcon) (fun x hx => hg x (by simp [hx]))
        (by simp at hf ⊢; omega) (by simp at hbound ⊢; omega)
      rw [hJc] at hrec
      simp only [List.head?_cons, List.isEmpty_cons, List.tail_cons, List.length_cons,
        Option.some.injEq, reduceCtorEq]
      rw [if_neg (by decide : ¬ (':' = '.'))]
      simp only [not_true, if_false]
      rw [if_neg (by omega : ¬ ((cc ++ tl).length + 1 + 1 = 1))]
      rw [if_neg (hex_ne_colon hchex)]
      rw [hrec]
      simp [bytesOfGroups, List.append_assoc]

/-- Running the loop over `pre` groups, a `::`, then `post` groups, starting
with no ellipsis: the ellipsis is recorded right after the `pre` bytes. -/
lemma p6run_mid : ∀ (pre post : List Nat) (fuel : Nat) (acc : List Nat),
    pre ≠ [] → (∀ g ∈ pre, g ≤ 65535) → (∀ g ∈ post, g ≤ 65535) →
    pre.length + post.length ≤ fuel →
    acc.length + 2 * (pre.length + post.length) ≤ 14 →
    p6loop fuel (joinSep ':' (pre.map hexChars) ++ ':' :: ':' ::
        joinSep ':' (post.map hexChars)) acc none =
      some (acc ++ bytesOfGroups pre ++ bytesOfGroups post,
        some (acc.length + 2 * pre.length))
  | [], _, _, _, hne, _, _, _, _ => absurd rfl hne
  | [p], post, fuel, acc, _, hpre, hpost, hf, hb => by
    cases fuel with
    | zero => simp at hf
    | succ f =>
      have hht : hexTake (hexChars p ++ ':' :: ':' :: joinSep ':' (post.map hexChars)) =
          some (p, ':' :: ':' :: joinSep ':' (post.map hexChars)) :=
        hexTake_group p _ (hpre p (by simp)) (takeWhile_hex_colon _)
      rw [show joinSep ':' ([p].map hexChars) ++ ':' :: ':' ::
            joinSep ':' (post.map hexChars)
          = hexChars p ++ ':' :: ':' :: joinSep ':' (post.map hexChars) from rfl]
      rw [p6loop, if_neg (by simp at hb; omega : ¬ 16 ≤ acc.length), hht]
      simp only [List.head?_cons, List.isEmpty_cons, List.tail_cons, List.length_cons,
        Option.some.injEq, reduceCtorEq]
      rw [if_neg (by decide : ¬ (':' = '.'))]
      simp only [not_true, if_false]
      rw [if_neg (by omega :
        ¬ ((joinSep ':' (post.map hexChars)).length + 1 + 1 = 1))]
      simp only [if_true, Option.isSome_none, Bool.false_eq_true, if_false]
      cases post with
      | nil =>
        simp [joinSep, bytesOfGroups]
      | cons p2 t2 =>
        obtain ⟨tl, htl⟩ := joinSep_map_cons_ne p2 t2
        obtain ⟨c, cc, hcc⟩ : ∃ c cc, hexChars p2 = c :: cc := by
          cases hx : hexChars p2 with
          | nil => exact absurd hx (hexChars_ne_nil p2)
          | cons c cc => exact ⟨c, cc, rfl⟩
        have hJc : joinSep ':' ((p2 :: t2).map hexChars) = c :: (cc ++ tl) := by
          rw [htl, hcc, List.cons_append]
        rw [hJc]
        simp only [List.isEmpty_cons, Bool.false_eq_true, if_false]
        have hrec := p6run_noEll (p2 :: t2) f (acc ++ [p / 256, p % 256])
          (some (acc ++ [p / 256, p % 256]).length)
          (fun hcon => nomatch hcon) hpost
          (by simp at hf ⊢; omega) (by simp at hb ⊢; omega)
        rw [hJc] at hrec
        rw [hrec]
        simp [bytesOfGroups, List.append_assoc]
  | p :: p2 :: t, post, fuel, acc, _, hpre, hpost, hf, hb => by
    cases fuel with
    | zero => simp at hf
    | succ f =>
      obtain ⟨tl, htl⟩ := joinSep_map_cons_ne p2 t
      obtain ⟨c, cc, hcc⟩ : ∃ c cc, hexChars p2 = c :: cc := by
        cases hx : hexChars p2 with
        | nil => exact absurd hx (hexChars_ne_nil p2)
        | cons c cc => exact ⟨c, cc, rfl⟩
      have hchex : isHexDigitChar c = true :=
        hexChars_all_hex p2 c (by rw [hcc]; simp)
      have hZ : joinSep ':' ((p :: p2 :: t).map hexChars) ++ ':' :: ':' ::
          joinSep ':' (post.map hexChars)
          = hexChars p ++ ':' :: (joinSep ':' ((p2 :: t).map hexChars) ++ ':' :: ':' ::
            joinSep ':' (post.map hexChars)) := by
        rw [show joinSep ':' ((p :: p2 :: t).map hexChars)
            = hexChars p ++ ':' :: joinSep ':' ((p2 :: t).map hexChars) from rfl]
        simp [List.append_assoc]
      have hht : hexTake (hexChars p ++ ':' ::
          (joinSep ':' ((p2 :: t).map hexChars) ++ ':' :: ':' ::
            joinSep ':' (post.map hexChars))) =
          some (p, ':' :: (joinSep ':' ((p2 :: t).map hexChars) ++ ':' :: ':' ::
            joinSep ':' (post.map hexChars))) :=
        hexTake_group p _ (hpre p (by simp)) (takeWhile_hex_colon _)
      have hZc : joinSep ':' ((p2 :: t).map hexChars) ++ ':' :: ':' ::
          joinSep ':' (post.map hexChars) = c :: (cc ++ tl ++ ':' :: ':' ::
            joinSep ':' (post.map hexChars)) := by
        rw [htl, hcc]
        simp [List.append_assoc]
      rw [hZ, p6loop, if_neg (by simp at hb; omega : ¬ 16 ≤ acc.length), hht, hZc]
      simp only [List.head?_cons, List.isEmpty_cons, List.tail_cons, List.length_cons,
        Option.some.injEq, reduceCtorEq]
      rw [if_neg (by decide : ¬ (':' = '.'))]
      simp only [not_true, if_false]
      rw [if_neg (by omega :
        ¬ ((cc ++ tl ++ ':' :: ':' :: joinSep ':' (post.map hexChars)).length + 1 + 1 = 1))]
      rw [if_neg (hex_ne_colon hchex)]
      have hrec := p6run_mid (p2 :: t) post f (acc ++ [p / 256, p % 256])
        (fun hcon => nomatch hcon) (fun x hx => hpre x (by simp [hx])) hpost
        (by simp at hf ⊢; omega) (by simp at hb ⊢; omega)
      rw [hZc] at hrec
      rw [hrec]
      simp [bytesOfGroups, List.append_assoc]
      omega

lemma all_zeros_eq_replicate {l : List Nat} (h : isZeros l = true) :
    l = List.replicate l.length 0 := by
  induction l with
  | nil => rfl
  | cons x rest ih =>
    rw [isZeros] at h
    simp only [List.all_cons, Bool.and_eq_true, beq_iff_eq] at h
    rw [List.length_cons, List.replicate_succ, h.1,
      ← ih (by rw [isZeros]; exact h.2)]

/-- A 16-byte value passing the `To4` test is exactly the IPv4-mapped form of
its last four bytes. -/
lemma v4InV6_decomp (ip : List Nat) (h16 : ip.length = 16)
    (hv4 : isV4InV6 ip = true) : ip = v4InV6 (ip.drop 12) := by
  rw [isV4InV6] at hv4
  simp only [Bool.and_eq_true, beq_iff_eq] at hv4
  obtain ⟨⟨hz, h10⟩, h11⟩ := hv4
  have h10lt : 10 < ip.length := by omega
  have h11lt : 11 < ip.length := by omega
  have htake : ip.take 10 = List.replicate 10 0 := by
    have h := all_zeros_eq_replicate hz
    rw [List.length_take, h16] at h
    simpa using h
  have hd10 : ip.drop 10 = ip[10] :: ip.drop 11 := List.drop_eq_getElem_cons h10lt
  have hd11 : ip.drop 11 = ip[11] :: ip.drop 12 := List.drop_eq_getElem_cons h11lt
  have hg10 : ip[10] = 255 := by rw [← List.getD_eq_getElem ip 0 h10lt]; exact h10
  have hg11 : ip[11] = 255 := by rw [← List.getD_eq_getElem ip 0 h11lt]; exact h11
  calc ip = ip.take 10 ++ ip.drop 10 := (List.take_append_drop 10 ip).symm
    _ = List.replicate 10 0 ++ 255 :: 255 :: ip.drop 12 := by
        rw [htake, hd10, hd11, hg10, hg11]
    _ = v4InV6 (ip.drop 12) := by rw [v4InV6]; rfl

lemma take2_ne_of_hexhead {c : Char} (hc : isHexDigitChar c = true)
    (r : List Char) : ¬ ((c :: r).take 2 = [':', ':']) := by
  intro h
  rw [List.take_succ_cons] at h
  injection h with h1 _
  exact hex_ne_colon hc h1

lemma joinSep_cons_shape (g : Nat) (t : List Nat) (X : List Char) :
    ∃ tl, joinSep ':' ((g :: t).map hexChars) ++ ':' :: X = hexChars g ++ ':' :: tl := by
  cases t with
  | nil => exact ⟨X, rfl⟩
  | cons g2 t2 =>
    refine ⟨joinSep ':' ((g2 :: t2).map hexChars) ++ ':' :: X, ?_⟩
    rw [show joinSep ':' ((g :: g2 :: t2).map hexChars)
        = hexChars g ++ ':' :: joinSep ':' ((g2 :: t2).map hexChars) from rfl]
    simp [List.append_assoc]

lemma p6finish_full (acc : List Nat) (h : acc.length = 16) :
    p6finish (some (acc, none)) = some acc := by
  simp [p6finish, h]

lemma p6finish_ell (acc : List Nat) (e : Nat) (h : acc.length < 16) :
    p6finish (some (acc, some e)) =
      some (acc.take e ++ List.replicate (16 - acc.length) 0 ++ acc.drop e) := by
  simp [p6finish, h]

/-- `parseIPChars` with its dispatch predicate named. -/
lemma parseIPChars_eq (cs : List Char) :
    parseIPChars cs = match cs.find? isSpecialChar with
      | none => none
      | some c => if c = '.' then (parseIPv4 cs).map v4InV6
                  else if c = ':' then parseIPv6 cs
                  else none := rfl

/-- The first special character of a rendered group list is always `:`. -/
lemma find?_renderGroups (gs : List Nat) (h2 : 2 ≤ gs.length) :
    (renderGroups gs).find? isSpecialChar = some ':' := by
  cases hbz : bestZeroRun gs with
  | none =>
    simp only [renderGroups, hbz]
    rcases gs with _ | ⟨g0, _ | ⟨g1, t⟩⟩
    · simp at h2
    · simp at h2
    · rw [show joinSep ':' ((g0 :: g1 :: t).map hexChars)
          = hexChars g0 ++ ':' :: joinSep ':' ((g1 :: t).map hexChars) from rfl]
      exact find?_special_hexthen g0 _
  | some p =>
    obtain ⟨e0, l⟩ := p
    obtain ⟨he0, -, -⟩ := bestZeroRun_spec gs e0 l hbz
    simp only [renderGroups, hbz]
    by_cases he00 : e0 = 0
    · subst he00
      simp only [List.take_zero, List.map_nil]
      rw [show joinSep ':' ([] : List (List Char)) = [] from rfl, List.nil_append]
      rw [List.find?_cons_of_pos _ (by decide)]
    · cases hq : gs.take e0 with
      | nil =>
        have : (gs.take e0).length = e0 := by rw [List.length_take]; omega
        rw [hq] at this
        simp at this
        omega
      | cons q0 pre =>
        obtain ⟨tl, htl⟩ := joinSep_cons_shape q0 pre
          (':' :: joinSep ':' ((gs.drop (e0 + l)).map hexChars))
        rw [htl]
        exact find?_special_hexthen q0 _

/-- Parsing the RFC 5952 rendering of eight in-range groups recovers their
bytes. -/
lemma parseIPv6_renderGroups (gs : List Nat) (h8 : gs.length = 8)
    (hle : ∀ g ∈ gs, g ≤ 65535) :
    parseIPv6 (renderGroups gs) = some (bytesOfGroups gs) := by
  cases hbz : bestZeroRun gs with
  | none =>
    simp only [renderGroups, hbz]
    rcases gs with _ | ⟨g0, _ | ⟨g1, t⟩⟩
    · simp at h8
    · simp at h8
    · obtain ⟨c, cc, hcc⟩ : ∃ c cc, hexChars g0 = c :: cc := by
        cases hx : hexChars g0 with
        | nil => exact absurd hx (hexChars_ne_nil g0)
        | cons c cc => exact ⟨c, cc, rfl⟩
      have hchex : isHexDigitChar c = true :=
        hexChars_all_hex g0 c (by rw [hcc]; simp)
      have hshape : joinSep ':' ((g0 :: g1 :: t).map hexChars)
          = c :: (cc ++ ':' :: joinSep ':' ((g1 :: t).map hexChars)) := by
        rw [show joinSep ':' ((g0 :: g1 :: t).map hexChars)
            = hexChars g0 ++ ':' :: joinSep ':' ((g1 :: t).map hexChars) from rfl,
          hcc, List.cons_append]
      rw [parseIPv6, hshape, if_neg (take2_ne_of_hexhead hchex _), ← hshape]
      rw [p6run_noEll (g0 :: g1 :: t) 16 [] none (by simp) hle
        (by simp only [List.length_cons] at h8 ⊢; omega)
        (by simp only [List.length_cons, List.length_nil] at h8 ⊢; omega)]
      rw [List.nil_append]
      exact p6finish_full _ (by rw [length_bytesOfGroups, h8])
  | some p =>
    obtain ⟨e0, l⟩ := p
    obtain ⟨he0, hl, h2l⟩ := bestZeroRun_spec gs e0 l hbz
    have hdecomp := run_decomp gs e0 l he0 hl
    have hlle : l ≤ gs.length - e0 := by
      have h := leadZeros_le (gs.drop e0)
      rw [← hl, List.length_drop] at h
      omega
    have hpreLen : (gs.take e0).length = e0 := by
      rw [List.length_take]; omega
    have hpostLen : (gs.drop (e0 + l)).length = 8 - (e0 + l) := by
      rw [List.length_drop, h8]
    have hpostLe : ∀ g ∈ gs.drop (e0 + l), g ≤ 65535 :=
      fun g hg => hle g (List.mem_of_mem_drop hg)
    have hpreLe : ∀ g ∈ gs.take e0, g ≤ 65535 :=
      fun g hg => hle g (List.mem_of_mem_take hg)
    simp only [renderGroups, hbz]
    by_cases he00 : e0 = 0
    · subst he00
      simp only [Nat.zero_add] at hpostLen hpostLe
      simp only [List.take_zero, List.map_nil, Nat.zero_add] at hdecomp ⊢
      rw [show joinSep ':' ([] : List (List Char)) = [] from rfl, List.nil_append]
      rw [List.nil_append] at hdecomp
      by_cases hl8 : l = 8
      · subst hl8
        have hdrop : gs.drop 8 = [] := by
          apply List.eq_nil_of_length_eq_zero
          rw [List.length_drop, h8]
        rw [hdrop, List.map_nil,
          show joinSep ':' ([] : List (List Char)) = [] from rfl]
        rw [parseIPv6]
        rw [if_pos (show List.take 2 ([':', ':'] : List Char) = [':', ':'] from rfl)]
        rw [if_pos (show (List.drop 2 ([':', ':'] : List Char)).isEmpty = true from rfl)]
        rw [hdrop, List.append_nil] at hdecomp
        rw [hdecomp, bytesOfGroups_replicate]
      · have hpost0 : 0 < (gs.drop l).length := by
          rw [List.length_drop, h8]; omega
        cases hq : gs.drop l with
        | nil => rw [hq] at hpost0; simp at hpost0
        | cons q0 post =>
          obtain ⟨tl, htl⟩ := joinSep_map_cons_ne q0 post
          obtain ⟨c, cc, hcc⟩ : ∃ c cc, hexChars q0 = c :: cc := by
            cases hx : hexChars q0 with
            | nil => exact absurd hx (hexChars_ne_nil q0)
            | cons c cc => exact ⟨c, cc, rfl⟩
          have hJc : joinSep ':' ((q0 :: post).map hexChars) = c :: (cc ++ tl) := by
            rw [htl, hcc, List.cons_append]
          rw [parseIPv6]
          rw [if_pos (show List.take 2 (':' :: ':' ::
            joinSep ':' ((q0 :: post).map hexChars)) = [':', ':'] from rfl)]
          rw [show ((':' :: ':' :: joinSep ':' ((q0 :: post).map hexChars)).drop 2)
              = joinSep ':' ((q0 :: post).map hexChars) from rfl]
          rw [hJc]
          simp only [List.isEmpty_cons, Bool.false_eq_true, if_false]
          rw [← hJc]
          have hqlen : (q0 :: post).length = 8 - l := by
            rw [← hq, List.length_drop, h8]
          rw [p6run_noEll (q0 :: post) 16 [] (some 0) (by simp)
            (by rw [← hq]; exact hpostLe)
            (by rw [hqlen]; omega)
            (by rw [List.length_nil, hqlen]; omega)]
          rw [List.nil_append]
          have hblen : (bytesOfGroups (q0 :: post)).length = 2 * (8 - l) := by
            rw [length_bytesOfGroups, hqlen]
          rw [p6finish_ell _ 0 (by rw [hblen]; omega)]
          rw [List.take_zero, List.drop_zero, List.nil_append, hblen]
          rw [hdecomp, hq, bytesOfGroups_append, bytesOfGroups_replicate]
          rw [show 16 - 2 * (8 - l) = 2 * l from by omega]
    · cases hq : gs.take e0 with
      | nil =>
        rw [hq] at hpreLen
        simp at hpreLen
        omega
      | cons q0 pre =>
        obtain ⟨tl, htl⟩ := joinSep_cons_shape q0 pre
          (':' :: joinSep ':' ((gs.drop (e0 + l)).map hexChars))
        obtain ⟨c, cc, hcc⟩ : ∃ c cc, hexChars q0 = c :: cc := by
          cases hx : hexChars q0 with
          | nil => exact absurd hx (hexChars_ne_nil q0)
          | cons c cc => exact ⟨c, cc, rfl⟩
        have hchex : isHexDigitChar c = true :=
          hexChars_all_hex q0 c (by rw [hcc]; simp)
        have hshape : joinSep ':' ((q0 :: pre).map hexChars) ++ ':' :: ':' ::
            joinSep ':' ((gs.drop (e0 + l)).map hexChars)
            = c :: (cc ++ ':' :: tl) := by
          rw [htl, hcc, List.cons_append]
        rw [parseIPv6, hshape, if_neg (take2_ne_of_hexhead hchex _), ← hshape]
        have hqlen : (q0 :: pre).length = e0 := by rw [← hq]; exact hpreLen
        rw [p6run_mid (q0 :: pre) (gs.drop (e0 + l)) 16 [] (by simp)
          (by rw [← hq]; exact hpreLe) hpostLe
          (by rw [hqlen, hpostLen]; omega)
          (by rw [List.length_nil, hqlen, hpostLen]; omega)]
        rw [List.nil_append, List.length_nil, Nat.zero_add]
        have hblen : (bytesOfGroups (q0 :: pre) ++
            bytesOfGroups (gs.drop (e0 + l))).length = 2 * (8 - l) := by
          rw [List.length_append, length_bytesOfGroups, length_bytesOfGroups,
            hqlen, hpostLen]
          omega
        rw [p6finish_ell _ (2 * (q0 :: pre).length) (by rw [hblen]; omega)]
        rw [show 2 * (q0 :: pre).length = (bytesOfGroups (q0 :: pre)).length from
          (length_bytesOfGroups (q0 :: pre)).symm]
        rw [List.take_left, List.drop_left, hblen]
        rw [show 16 - 2 * (8 - l) = 2 * l from by omega]
        have hbg : bytesOfGroups gs = bytesOfGroups (q0 :: pre) ++
            List.replicate (2 * l) 0 ++ bytesOfGroups (gs.drop (e0 + l)) := by
          conv_lhs => rw [hdecomp]
          rw [hq, bytesOfGroups_append, bytesOfGroups_append, bytesOfGroups_replicate]
        rw [hbg]

/-- Round trip: parsing the rendered string of a valid 16-byte value recovers
that value. -/
lemma parse_render (ip : List Nat) (h16 : ip.length = 16)
    (hb : ∀ x ∈ ip, x < 256) : parseIPChars (ipStringChars ip) = some ip := by
  by_cases hv4 : isV4InV6 ip = true
  · have hdl : (ip.drop 12).length = 4 := by rw [List.length_drop, h16]
    have hdb : ∀ x ∈ ip.drop 12, x < 256 := fun x hx => hb x (List.mem_of_mem_drop hx)
    rw [ipStringChars, if_pos hv4]
    rw [parseIPChars_eq, find?_special_quad (ip.drop 12) hdb hdl]
    rw [show (match some ('.' : Char) with
        | none => none
        | some c => if c = '.'
            then (parseIPv4 (joinSep '.' ((ip.drop 12).map uitoa))).map v4InV6
            else if c = ':' then parseIPv6 (joinSep '.' ((ip.drop 12).map uitoa))
            else none)
      = (parseIPv4 (joinSep '.' ((ip.drop 12).map uitoa))).map v4InV6 from rfl]
    rw [parseIPv4_quad (ip.drop 12) hdl hdb]
    rw [show Option.map v4InV6 (some (ip.drop 12)) = some (v4InV6 (ip.drop 12)) from rfl]
    rw [← v4InV6_decomp ip h16 hv4]
  · have hmod : ip.length % 2 = 0 := by rw [h16]
    have h8 : (groupsOf ip).length = 8 := by rw [groupsOf_length, h16]
    have hgle := groupsOf_le ip hb
    have hbytes : bytesOfGroups (groupsOf ip) = ip := bytesOf_groupsOf ip hmod hb
    rw [ipStringChars, if_neg hv4]
    rw [parseIPChars_eq, find?_renderGroups (groupsOf ip) (by omega)]
    rw [show (match some (':' : Char) with
        | none => none
        | some c => if c = '.'
            then (parseIPv4 (renderGroups (groupsOf ip))).map v4InV6
            else if c = ':' then parseIPv6 (renderGroups (groupsOf ip))
            else none)
      = parseIPv6 (renderGroups (groupsOf ip)) from rfl]
    rw [parseIPv6_renderGroups (groupsOf ip) h8 hgle, hbytes]

/-- A successful canonical output is a fixed point of `CanonicalizeIP`. -/
lemma CanonicalizeIP_fixed {x y : String} (h : CanonicalizeIP x = some y) :
    CanonicalizeIP y = some y := by
  rw [CanonicalizeIP] at h
  cases hp : ParseIP x with
  | none => rw [hp] at h; exact absurd h (by simp)
  | some ip =>
    rw [hp] at h
    simp only [Option.some.injEq] at h
    subst h
    rw [ParseIP] at hp
    obtain ⟨h16, hb⟩ := parseIPChars_valid hp
    rw [CanonicalizeIP]
    rw [show ParseIP (ipString ip) = parseIPChars (ipStringChars ip) from rfl]
    rw [parse_render ip h16 hb]

/-- C8: IP canonicalization is idempotent — whenever `CanonicalizeIP` succeeds
on `x` with output `y`, running it on `y` succeeds and returns `y` itself (so
`canonicalize (canonicalize x) = canonicalize x`); consequently the
IPv4-mapped IPv6 form `::ffff:192.0.2.1` and the plain IPv4 `192.0.2.1`
canonicalize to the same string. -/
theorem CanonicalizeIP_idempotent :
    (∀ x y : String, CanonicalizeIP x = some y → CanonicalizeIP y = some y) ∧
    CanonicalizeIP ("::ffff:192.0.2.1") = some ("192.0.2.1") ∧
    CanonicalizeIP ("192.0.2.1") = some ("192.0.2.1") :=
  ⟨fun _ _ h => CanonicalizeIP_fixed h, by decide, by decide⟩

/-- Witness for C8: idempotence applied at the concrete input
`::ffff:192.0.2.1`, whose canonical form is `192.0.2.1`. -/
theorem CanonicalizeIP_idempotent_witness :
    CanonicalizeIP ("192.0.2.1") = some ("192.0.2.1") :=
  CanonicalizeIP_idempotent.1 ("::ffff:192.0.2.1") ("192.0.2.1") (by decide)

end OSDuth
